import Mathlib

/-!
Verification of the `build-site.py` pipeline of
`awesome-ai-ml-pharmacometrics-explorer`.

The script parses a Markdown bibliography (`parse_readme`) into a structured
dataset (paper records with URL-deduplication and cross-category merging,
methodology-tag normalization, review tagging, aggregate label sets and a
category-by-methodology co-occurrence matrix) and renders it into one HTML
page (`generate_html`) as a fixed prefix, the compact JSON serialization of
the dataset, and a fixed suffix.

The development below is a shallow embedding of that script: each definition
mirrors one construct of the Python source (the reference line numbers are
given in the doc comments).  Strings are handled as `List Char` in the
parsing layer, mirroring Python's per-character scanning.  Python's
`list(set(...))` (whose iteration order depends on the interpreter's string
hash seed) is modelled by an explicit parameter `setList`, constrained only
to enumerate the set (`ValidSetList`).
-/

/-- Whitespace as Python's `str.strip` / `\s` treats it on ASCII text
(space, tab, newline, carriage return, vertical tab, form feed).  Python also
strips rarer Unicode whitespace, which no claim here touches. -/
def isPySpace (c : Char) : Bool :=
  c = ' ' || c = '\t' || c = '\n' || c = '\r' || c = '\x0b' || c = '\x0c'

/-- Python `str.strip()`: drop whitespace from both ends (build-site.py lines 26, 27, 66, 68). -/
def pyStripL (cs : List Char) : List Char :=
  ((cs.dropWhile isPySpace).reverse.dropWhile isPySpace).reverse

/-- Python `re.split(r"\n## ", content)` (build-site.py line 20): split on each
leftmost, non-overlapping occurrence of the four-character separator. -/
def splitSections : List Char → List (List Char)
  | [] => [[]]
  | '\n' :: '#' :: '#' :: ' ' :: rest => [] :: splitSections rest
  | c :: cs =>
    match splitSections cs with
    | [] => [[c]]
    | r :: rs => (c :: r) :: rs

/-- Python `str.split("\n")` (build-site.py line 26). -/
def splitLines : List Char → List (List Char)
  | [] => [[]]
  | '\n' :: rest => [] :: splitLines rest
  | c :: cs =>
    match splitLines cs with
    | [] => [[c]]
    | r :: rs => (c :: r) :: rs

/-- Python `str.split(",")` (build-site.py line 63). -/
def splitCommas : List Char → List (List Char)
  | [] => [[]]
  | ',' :: rest => [] :: splitCommas rest
  | c :: cs =>
    match splitCommas cs with
    | [] => [[c]]
    | r :: rs => (c :: r) :: rs

/-- Whether the section separator `"\n## "` occurs anywhere in the text. -/
def hasMarker : List Char → Bool
  | [] => false
  | '\n' :: '#' :: '#' :: ' ' :: _ => true
  | _ :: cs => hasMarker cs

/-- Drop `pat` from the front of `cs` if it is literally there; else `none`. -/
def stripPre : List Char → List Char → Option (List Char)
  | [], cs => some cs
  | _ :: _, [] => none
  | p :: ps, c :: cs => if c = p then stripPre ps cs else none

/-- The lazy group `(.+?)` before `\)\*\*` in the title pattern: after the
literal `(`, the shortest non-empty run of characters followed immediately by
`)**` (Python backtracking semantics of `\((.+?)\)\*\*`). -/
def scanUrl : List Char → Option (List Char)
  | [] => none
  | c :: cs =>
    match stripPre [')', '*', '*'] cs with
    | some _ => some [c]
    | none => (scanUrl cs).map (c :: ·)

/-- The lazy group `(.+?)` before `\]\(` in the title pattern, including the
regex backtracking: at each candidate `](` the URL part is tried, and on its
failure the `]` is absorbed into the title and scanning continues.  The input
is the text after the first (unconditionally consumed) title character; the
result is (rest of title, url). -/
def scanTitle : List Char → Option (List Char × List Char)
  | [] => none
  | ']' :: '(' :: rest =>
    (match scanUrl rest with
     | some u => some ([], u)
     | none =>
       match scanTitle ('(' :: rest) with
       | some (t, u) => some (']' :: t, u)
       | none => none)
  | c :: cs =>
    match scanTitle cs with
    | some (t, u) => some (c :: t, u)
    | none => none

/-- Python `re.match(r"- \*\*\[(.+?)\]\((.+?)\)\*\*", line)` (build-site.py
line 34): anchored at the line start, both groups lazy and non-empty,
trailing text ignored. -/
def title_match (line : List Char) : Option (String × String) :=
  match stripPre ['-', ' ', '*', '*', '['] line with
  | none => none
  | some [] => none
  | some (c :: cs) =>
    match scanTitle cs with
    | some (t, u) => some (⟨c :: t⟩, ⟨u⟩)
    | none => none

/-- The common shape `re.match(r"\s*<key>\s*(.+)", line)` of the three metadata
patterns (build-site.py lines 57-59): maximal leading whitespace, the literal
key, then greedy `\s*` followed by `(.+)` — so the group is the rest of the
line past the whitespace following the key, or, when only whitespace follows
the key, its single last whitespace character (regex backtracking gives `.+`
one character back). -/
def metaTail (key : List Char) (line : List Char) : Option (List Char) :=
  match stripPre key (line.dropWhile isPySpace) with
  | none => none
  | some tail =>
    match tail.dropWhile isPySpace with
    | r :: rs => some (r :: rs)
    | [] =>
      match tail.reverse with
      | z :: _ => some [z]
      | [] => none

/-- Python `re.match(r"\s*- Methodology:\s*(.+)", line)` followed by
`[m.strip() for m in group.split(",")]` (build-site.py lines 57, 61-64). -/
def meth_match (line : List Char) : Option (List String) :=
  (metaTail ('-' :: ' ' :: "Methodology:".data) line).map
    (fun g => (splitCommas g).map (fun item => (⟨pyStripL item⟩ : String)))

/-- Python `re.match(r"\s*- Published:\s*(.+)", line)` with `.strip()` on the
group (build-site.py lines 58, 65-66). -/
def pub_match (line : List Char) : Option String :=
  (metaTail ('-' :: ' ' :: "Published:".data) line).map
    (fun g => (⟨pyStripL g⟩ : String))

/-- Python `re.match(r"\s*- Summary:\s*(.+)", line)` with `.strip()` on the
group (build-site.py lines 59, 67-68). -/
def sum_match (line : List Char) : Option String :=
  (metaTail ('-' :: ' ' :: "Summary:".data) line).map
    (fun g => (⟨pyStripL g⟩ : String))

/-- One paper record (the dict built at build-site.py lines 47-55, with the
`is_review` field added by the pass at lines 93-98; it is carried here from
the start, `false` until that pass). -/
structure Paper where
  id : Nat
  title : String
  url : String
  methodologies : List String
  applications : List String
  published : String
  summary : String
  is_review : Bool
deriving DecidableEq

/-- The mutable scan state of `parse_readme` (build-site.py lines 21-23):
the collected papers, the next sequential id, and the url → index map
(`seen_urls`, a dict, modelled as its association list in insertion order). -/
structure PState where
  papers : List Paper
  paper_id : Nat
  seen_urls : List (String × Nat)
deriving DecidableEq

/-- Python dict lookup `seen_urls[url]` / `url in seen_urls` combined. -/
def lookupUrl : List (String × Nat) → String → Option Nat
  | [], _ => none
  | (k, v) :: rest, u => if k = u then some v else lookupUrl rest u

/-- Python `if category not in existing["applications"]:
existing["applications"].append(category)` (build-site.py lines 40-41, 74-75). -/
def appendCat (category : String) (p : Paper) : Paper :=
  if category ∈ p.applications then p
  else { p with applications := p.applications ++ [category] }

/-- In-place update of the list element at index `i` (Python's mutation of
`papers[seen_urls[url]]`). -/
def updateAt : List Paper → Nat → (Paper → Paper) → List Paper
  | [], _, _ => []
  | p :: ps, 0, f => f p :: ps
  | p :: ps, Nat.succ n, f => p :: updateAt ps n f

/-- The finalize/merge block of `parse_readme`, duplicated in the source at
build-site.py lines 36-45 (before a new title) and 70-79 (at section end):
a seen URL gets the current category appended to the existing record's
applications (if absent) and the candidate is dropped; an unseen URL appends
the candidate, records its index, and bumps `paper_id`. -/
def finalizePaper (category : String) (st : PState) (p : Paper) : PState :=
  match lookupUrl st.seen_urls p.url with
  | some idx => { st with papers := updateAt st.papers idx (appendCat category) }
  | none =>
    { papers := st.papers ++ [p]
      paper_id := st.paper_id + 1
      seen_urls := st.seen_urls ++ [(p.url, st.papers.length)] }

/-- The fresh pending record of build-site.py lines 47-55. -/
def newPaper (pid : Nat) (category t u : String) : Paper :=
  { id := pid, title := t, url := u, methodologies := [], applications := [category]
    published := "", summary := "", is_review := false }

/-- The metadata branch of the line loop (build-site.py lines 56-68), applied
only when a record is pending: `Methodology:` replaces the methodology list,
`Published:` and `Summary:` the respective strings; any other line leaves the
record unchanged. -/
def applyMeta (p : Paper) (line : List Char) : Paper :=
  match meth_match line with
  | some ms => { p with methodologies := ms }
  | none =>
    match pub_match line with
    | some s => { p with published := s }
    | none =>
      match sum_match line with
      | some s => { p with summary := s }
      | none => p

/-- The flush of a pending record into the state: the finalize/merge block the
source duplicates before a new title (build-site.py lines 36-45) and at
section end (lines 70-79); no pending record leaves the state unchanged. -/
def sectionFlush (category : String) (acc : PState × Option Paper) : PState :=
  match acc.2 with
  | some p => finalizePaper category acc.1 p
  | none => acc.1

/-- One iteration of the line loop (build-site.py lines 33-68) over the state
(global state, pending record): a title line flushes any pending record and
opens a fresh one; otherwise the metadata branch applies to a pending record. -/
def stepLine (category : String) (acc : PState × Option Paper) (line : List Char) :
    PState × Option Paper :=
  match title_match line with
  | some (t, u) =>
    let st := sectionFlush category acc
    (st, some (newPaper st.paper_id category t u))
  | none =>
    match acc.2 with
    | none => acc
    | some p => (acc.1, some (applyMeta p line))

/-- One section of the document (build-site.py lines 25-79): first stripped
line is the category, a literal "Table of Contents" section is skipped, the
remaining lines run through the line loop, and a pending record is flushed. -/
def processSection (st : PState) (sec : List Char) : PState :=
  let lines := splitLines (pyStripL sec)
  let category : String := ⟨pyStripL (lines.headD [])⟩
  if category = "Table of Contents" then st
  else sectionFlush category ((lines.drop 1).foldl (stepLine category) (st, none))

/-- build-site.py lines 21-23. -/
def initState : PState := ⟨[], 0, []⟩

/-- The whole section scan (build-site.py lines 20-79): split on `"\n## "`,
discard the preamble (`sections[1:]`), fold the sections through the scanner. -/
def scanSections (content : String) : PState :=
  ((splitSections content.data).drop 1).foldl processSection initState

/-- The raw paper list after the section scan, before the normalization passes. -/
def papersRaw (content : String) : List Paper :=
  (scanSections content).papers

/-- The rename table `meth_remap = {"Machine Learning": "Machine learning",
"Artificial Intelligence": None}` together with the branch that drops a
`None` image and passes unknown tags through (build-site.py lines 82-90). -/
def meth_remap (m : String) : Option String :=
  if m = "Machine Learning" then some "Machine learning"
  else if m = "Artificial Intelligence" then none
  else some m

/-- The `cleaned` list of build-site.py lines 84-90: remap each tag, dropping
the removed ones. -/
def cleanMeths (ms : List String) : List String :=
  ms.filterMap meth_remap

/-- Python `list(set(cleaned))` under the canonical enumeration (`List.dedup`):
the normalized methodology set of a paper (build-site.py line 91). -/
def normalizeMeths (ms : List String) : List String :=
  (cleanMeths ms).dedup

/-- The normalization pass over one paper (build-site.py lines 83-91), with
the enumeration order of `list(set(cleaned))` an explicit parameter. -/
def normPaper (setList : List String → List String) (p : Paper) : Paper :=
  { p with methodologies := setList (cleanMeths p.methodologies) }

/-- The reserved category label (build-site.py lines 95, 97). -/
def reviewsLabel : String := "Reviews / Tutorials / Perspectives"

/-- The review-tagging pass over one paper (build-site.py lines 94-98):
`is_review` is set iff the label is among the applications, and the label is
then filtered out of the applications. -/
def tagReview (p : Paper) : Paper :=
  { p with
    is_review := decide (reviewsLabel ∈ p.applications)
    applications := p.applications.filter (fun a => decide (a ≠ reviewsLabel)) }

/-- The generator expression `(a for p in papers for a in p["applications"])`
(build-site.py line 101). -/
def collectApps : List Paper → List String
  | [] => []
  | p :: ps => p.applications ++ collectApps ps

/-- The generator expression `(m for p in papers for m in p["methodologies"]
if m)` (build-site.py line 102): empty tags excluded. -/
def collectMeths : List Paper → List String
  | [] => []
  | p :: ps => p.methodologies.filter (fun m => decide (m ≠ "")) ++ collectMeths ps

/-- Python `sorted` on strings (lexicographic by code point). -/
def sortStrings (l : List String) : List String :=
  l.insertionSort (· ≤ ·)

/-- Python `sorted(set(a for p in papers for a in p["applications"]))`
(build-site.py line 101). -/
def all_apps (papers : List Paper) : List String :=
  sortStrings (collectApps papers).dedup

/-- Python `sorted(set(m for p in papers for m in p["methodologies"] if m))`
(build-site.py line 102). -/
def all_meths (papers : List Paper) : List String :=
  sortStrings (collectMeths papers).dedup

/-- The matrix cell count (build-site.py lines 109-115): the number of papers
having both the application and the methodology. -/
def countPapers (papers : List Paper) (app meth : String) : Nat :=
  (papers.filter (fun p =>
    decide (app ∈ p.applications) && decide (meth ∈ p.methodologies))).length

/-- The dense matrix (build-site.py lines 105-116), as the association list the
nested dicts are built in: one row per application, one cell per methodology. -/
def buildMatrix (papers : List Paper) (apps meths : List String) :
    List (String × List (String × Nat)) :=
  apps.map (fun app => (app, meths.map (fun meth => (meth, countPapers papers app meth))))

/-- The dataset `parse_readme` returns (build-site.py lines 120-126), with
`lastUpdated` (wall clock there) an explicit parameter here. -/
structure Dataset where
  papers : List Paper
  applications : List String
  methodologies : List String
  matrix : List (String × List (String × Nat))
  lastUpdated : String
deriving DecidableEq

/-- `parse_readme` (build-site.py lines 15-126) over a given enumeration order
for `list(set(...))` and a given current date. -/
def parseReadmeWith (setList : List String → List String) (content today : String) :
    Dataset :=
  let ps := ((papersRaw content).map (normPaper setList)).map tagReview
  { papers := ps
    applications := all_apps ps
    methodologies := all_meths ps
    matrix := buildMatrix ps (all_apps ps) (all_meths ps)
    lastUpdated := today }

/-- `parse_readme` under the canonical set enumeration. -/
def parse_readme (content today : String) : Dataset :=
  parseReadmeWith List.dedup content today

/-- A function behaves as Python's `list(set(...))` for some hash seed iff it
enumerates each distinct element of its input exactly once, in some order. -/
def ValidSetList (o : List String → List String) : Prop :=
  ∀ l : List String, (o l).Perm l.dedup

/-! ### Specification-level view of the section scan

The spec (§4.1) describes the scan as: each title-pattern line of a
non-Table-of-Contents section yields exactly one candidate record (with the
metadata lines up to the next title applied to it, the last candidate of a
section committed at section end), and the candidates are folded, in document
order, through the finalize/merge rule keyed on the URL alone.  The
definitions below state that reading; `papersRaw_eq_mergeFold` proves the
implementation above refines it. -/

/-- The finalize/merge rule as the spec words it, keyed on the URL directly
(no `seen_urls` index map): a seen URL appends the category to the existing
record (if absent), an unseen URL appends the candidate with the next
sequential identifier. -/
def mergeSpec (papers : List Paper) (category : String) (p : Paper) : List Paper :=
  if papers.any (fun q => decide (q.url = p.url)) then
    papers.map (fun q => if q.url = p.url then appendCat category q else q)
  else
    papers ++ [{ p with id := papers.length }]

/-- Folding the merge rule over a list of (category, candidate) occurrences. -/
def mergeFold (papers : List Paper) (occs : List (String × Paper)) : List Paper :=
  occs.foldl (fun acc occ => mergeSpec acc occ.1 occ.2) papers

/-- A pending candidate, emitted with its category (or nothing pending). -/
def flushOcc (category : String) : Option Paper → List (String × Paper)
  | some p => [(category, p)]
  | none => []

/-- The candidate records of one section's line list, in order: each
title-pattern line emits any pending candidate and opens a fresh one (its
identifier irrelevant to the merge rule, fixed at 0 here), other lines update
a pending candidate through the metadata branch, and the last candidate is
emitted at the end of the lines. -/
def collectOccs (category : String) : List (List Char) → Option Paper → List (String × Paper)
  | [], cur => flushOcc category cur
  | l :: ls, cur =>
    match title_match l with
    | some (t, u) =>
      flushOcc category cur ++ collectOccs category ls (some (newPaper 0 category t u))
    | none => collectOccs category ls (cur.map (fun p => applyMeta p l))

/-- The candidate records of one raw section (empty for Table of Contents). -/
def sectionOccs (sec : List Char) : List (String × Paper) :=
  let lines := splitLines (pyStripL sec)
  let category : String := ⟨pyStripL (lines.headD [])⟩
  if category = "Table of Contents" then []
  else collectOccs category (lines.drop 1) none

/-- All candidate records of a section list, in document order. -/
def occsAll : List (List Char) → List (String × Paper)
  | [] => []
  | sec :: secs => sectionOccs sec ++ occsAll secs

/-- All candidate records of a document (preamble discarded). -/
def docOccs (content : String) : List (String × Paper) :=
  occsAll ((splitSections content.data).drop 1)

/-- The categories of the occurrences of url `u`, in order. -/
def catsOf (occs : List (String × Paper)) (u : String) : List String :=
  (occs.filter (fun occ => decide (occ.2.url = u))).map Prod.fst

/-- The categories a URL is declared under, in document order, one entry per
title-pattern occurrence of that URL. -/
def declaredCats (content : String) (u : String) : List String :=
  catsOf (docOccs content) u

/-- Append each element not already present, in order (the accumulation the
merge rule performs on a record's application list). -/
def foldIns (init : List String) (l : List String) : List String :=
  l.foldl (fun acc c => if c ∈ acc then acc else acc ++ [c]) init

/-- Insertion-order deduplication: keep each element's first occurrence. -/
def insDedup (l : List String) : List String :=
  foldIns [] l

/-- The application list of the record with url `u`, when present. -/
def appsOf (papers : List Paper) (u : String) : Option (List String) :=
  (papers.find? (fun p => decide (p.url = u))).map Paper.applications

/-! ### The JSON layer and `generate_html` -/

/-- The JSON values `json.dumps` meets in this dataset: strings, naturals
(ids and counts are the only numbers), booleans, arrays and objects. -/
inductive Jval where
  | str : String → Jval
  | num : Nat → Jval
  | bool : Bool → Jval
  | arr : List Jval → Jval
  | obj : List (String × Jval) → Jval

/-- Decimal digits of `n`, most significant first, prepended to `acc`
(the decimal integer rendering `json.dumps` uses); the first argument is
fuel, `n` itself always being enough. -/
def decDigits : Nat → Nat → List Char → List Char
  | 0, n, acc => Char.ofNat (48 + n % 10) :: acc
  | Nat.succ fuel, n, acc =>
    if n < 10 then Char.ofNat (48 + n % 10) :: acc
    else decDigits fuel (n / 10) (Char.ofNat (48 + n % 10) :: acc)

/-- Decimal rendering of a natural number. -/
def decRepr (n : Nat) : List Char :=
  decDigits n n []

/-- One lowercase hexadecimal digit character. -/
def hexDigit (d : Nat) : Char :=
  if d < 10 then Char.ofNat (48 + d) else Char.ofNat (87 + d)

/-- A `\uXXXX` escape. -/
def uEsc (n : Nat) : List Char :=
  ['\\', 'u', hexDigit (n / 4096 % 16), hexDigit (n / 256 % 16), hexDigit (n / 16 % 16),
   hexDigit (n % 16)]

/-- One character as `json.dumps` (default `ensure_ascii=True`) emits it
inside a string literal. -/
def escChar (c : Char) : List Char :=
  if c = '"' then ['\\', '"']
  else if c = '\\' then ['\\', '\\']
  else if c = '\n' then ['\\', 'n']
  else if c = '\r' then ['\\', 'r']
  else if c = '\t' then ['\\', 't']
  else if c = '\x08' then ['\\', 'b']
  else if c = '\x0c' then ['\\', 'f']
  else if c.toNat < 0x20 then uEsc c.toNat
  else if c.toNat < 0x7f then [c]
  else if c.toNat < 0x10000 then uEsc c.toNat
  else uEsc (0xd800 + (c.toNat - 0x10000) / 0x400) ++ uEsc (0xdc00 + (c.toNat - 0x10000) % 0x400)

/-- A whole string body, escaped. -/
def escString : List Char → List Char
  | [] => []
  | c :: cs => escChar c ++ escString cs

mutual

/-- Compact JSON rendering: `json.dumps(..., separators=(",", ":"))`
(build-site.py line 131) — no whitespace anywhere. -/
def renderJ : Jval → List Char
  | .str s => '"' :: (escString s.data ++ ['"'])
  | .num n => decRepr n
  | .bool b => if b then "true".data else "false".data
  | .arr xs => '[' :: (renderArr xs ++ [']'])
  | .obj kvs => '\x7b' :: (renderObj kvs ++ ['\x7d'])

/-- Array elements, comma-separated. -/
def renderArr : List Jval → List Char
  | [] => []
  | [x] => renderJ x
  | x :: y :: xs => renderJ x ++ ',' :: renderArr (y :: xs)

/-- Object entries, comma-separated, `"key":value`. -/
def renderObj : List (String × Jval) → List Char
  | [] => []
  | [(k, v)] => '"' :: (escString k.data ++ '"' :: ':' :: renderJ v)
  | (k, v) :: kv :: rest =>
    ('"' :: (escString k.data ++ '"' :: ':' :: renderJ v)) ++ ',' :: renderObj (kv :: rest)

end

/-- One paper as the dict of build-site.py lines 47-55 with `is_review`
appended (line 95), in that key order. -/
def encodePaper (p : Paper) : Jval :=
  .obj [("id", .num p.id), ("title", .str p.title), ("url", .str p.url),
        ("methodologies", .arr (p.methodologies.map .str)),
        ("applications", .arr (p.applications.map .str)),
        ("published", .str p.published), ("summary", .str p.summary),
        ("is_review", .bool p.is_review)]

/-- One matrix row as its nested dict. -/
def encodeRow (row : List (String × Nat)) : Jval :=
  .obj (row.map (fun kv => (kv.1, .num kv.2)))

/-- The dataset as the dict of build-site.py lines 120-126, in that key order. -/
def encodeDataset (d : Dataset) : Jval :=
  .obj [("papers", .arr (d.papers.map encodePaper)),
        ("applications", .arr (d.applications.map .str)),
        ("methodologies", .arr (d.methodologies.map .str)),
        ("matrix", .obj (d.matrix.map (fun r => (r.1, encodeRow r.2)))),
        ("lastUpdated", .str d.lastUpdated)]

/-- `compact_json` of build-site.py line 131. -/
def compactJson (d : Dataset) : String :=
  ⟨renderJ (encodeDataset d)⟩

/-- Association lookup in a decoded JSON object. -/
def jLookup (k : String) : List (String × Jval) → Option Jval
  | [] => none
  | (k', v) :: rest => if k' = k then some v else jLookup k rest

/-- Read back a JSON string. -/
def jStr : Jval → Option String
  | .str s => some s
  | _ => none

/-- Read back a JSON natural number. -/
def jNum : Jval → Option Nat
  | .num n => some n
  | _ => none

/-- Read back a JSON boolean. -/
def jBool : Jval → Option Bool
  | .bool b => some b
  | _ => none

/-- Read back a list of JSON strings. -/
def jStrList : List Jval → Option (List String)
  | [] => some []
  | .str s :: xs => (jStrList xs).map (s :: ·)
  | _ => none

/-- Read back an array of strings. -/
def jStrArr : Jval → Option (List String)
  | .arr xs => jStrList xs
  | _ => none

/-- Read back one paper record from its JSON object. -/
def decodePaper (j : Jval) : Option Paper :=
  match j with
  | .obj kvs => do
    let id ← jLookup "id" kvs >>= jNum
    let title ← jLookup "title" kvs >>= jStr
    let url ← jLookup "url" kvs >>= jStr
    let meths ← jLookup "methodologies" kvs >>= jStrArr
    let apps ← jLookup "applications" kvs >>= jStrArr
    let published ← jLookup "published" kvs >>= jStr
    let summary ← jLookup "summary" kvs >>= jStr
    let rev ← jLookup "is_review" kvs >>= jBool
    some ⟨id, title, url, meths, apps, published, summary, rev⟩
  | _ => none

/-- Read back a list of paper records. -/
def decodePapers : List Jval → Option (List Paper)
  | [] => some []
  | j :: js => do
    let p ← decodePaper j
    let ps ← decodePapers js
    some (p :: ps)

/-- Read back one matrix row. -/
def decodeRow : List (String × Jval) → Option (List (String × Nat))
  | [] => some []
  | (k, v) :: rest => do
    let n ← jNum v
    let r ← decodeRow rest
    some ((k, n) :: r)

/-- Read back the matrix. -/
def decodeMatrix : List (String × Jval) → Option (List (String × List (String × Nat)))
  | [] => some []
  | (k, v) :: rest => do
    let row ← match v with
              | .obj kvs => decodeRow kvs
              | _ => none
    let r ← decodeMatrix rest
    some ((k, row) :: r)

/-- Read back the whole dataset from its JSON value. -/
def decodeDataset (j : Jval) : Option Dataset :=
  match j with
  | .obj kvs => do
    let papers ← match jLookup "papers" kvs with
                 | some (.arr xs) => decodePapers xs
                 | _ => none
    let apps ← jLookup "applications" kvs >>= jStrArr
    let meths ← jLookup "methodologies" kvs >>= jStrArr
    let matrix ← match jLookup "matrix" kvs with
                 | some (.obj rows) => decodeMatrix rows
                 | _ => none
    let lastUpdated ← jLookup "lastUpdated" kvs >>= jStr
    some ⟨papers, apps, meths, matrix, lastUpdated⟩
  | _ => none
/-- The HTML template up to the insertion point of the serialized dataset
(build-site.py lines 135-278, the string before `+ compact_json`). -/
def htmlPrefix : String :=
  "<!DOCTYPE html>
<html lang=\"en\">
<head>
<meta charset=\"UTF-8\">
<meta name=\"viewport\" content=\"width=device-width, initial-scale=1.0\">
<title>AI/ML in Pharmacometrics â€” Interactive Explorer</title>
<link rel=\"preconnect\" href=\"https://fonts.googleapis.com\">
<link href=\"https://fonts.googleapis.com/css2?family=DM+Sans:ital,opsz,wght@0,9..40,300;0,9..40,400;0,9..40,500;0,9..40,600;0,9..40,700;1,9..40,300;1,9..40,400&family=JetBrains+Mono:wght@400;500&family=Fraunces:ital,opsz,wght@0,9..144,300;0,9..144,600;0,9..144,800;1,9..144,300&display=swap\" rel=\"stylesheet\">
<style>
:root \x7b
  --bg: #0c0f14;
  --bg-card: #141820;
  --bg-card-hover: #1a2030;
  --bg-surface: #111520;
  --border: #1e2738;
  --border-active: #3a7bfd;
  --text: #e2e8f0;
  --text-dim: #7a8ba8;
  --text-muted: #4a5568;
  --accent: #3a7bfd;
  --accent-glow: rgba(58,123,253,0.15);
  --heat-0: #141820;
  --heat-1: #0d2847;
  --heat-2: #134080;
  --heat-3: #1a5ab8;
  --heat-4: #2474e8;
  --heat-5: #3a8fff;
  --green: #34d399;
  --amber: #fbbf24;
  --rose: #f87171;
  --radius: 8px;
\x7d
* \x7b margin: 0; padding: 0; box-sizing: border-box; \x7d
html \x7b scroll-behavior: smooth; \x7d
body \x7b font-family: 'DM Sans', sans-serif; background: var(--bg); color: var(--text); line-height: 1.6; min-height: 100vh; \x7d
::selection \x7b background: var(--accent); color: white; \x7d
.container \x7b max-width: 1400px; margin: 0 auto; padding: 0 24px; \x7d
header \x7b padding: 48px 0 32px; border-bottom: 1px solid var(--border); \x7d
header .eyebrow \x7b font-family: 'JetBrains Mono', monospace; font-size: 11px; letter-spacing: 2px; text-transform: uppercase; color: var(--accent); margin-bottom: 12px; \x7d
header h1 \x7b font-family: 'Fraunces', serif; font-size: clamp(28px, 4vw, 42px); font-weight: 800; line-height: 1.15; color: var(--text); margin-bottom: 12px; \x7d
header h1 span \x7b color: var(--accent); \x7d
header .subtitle \x7b color: var(--text-dim); font-size: 15px; max-width: 600px; margin-bottom: 24px; \x7d
.stats-row \x7b display: flex; gap: 32px; flex-wrap: wrap; \x7d
.stat \x7b display: flex; flex-direction: column; \x7d
.stat-value \x7b font-family: 'JetBrains Mono', monospace; font-size: 28px; font-weight: 500; color: var(--text); \x7d
.stat-label \x7b font-size: 12px; color: var(--text-muted); text-transform: uppercase; letter-spacing: 1px; \x7d
.links-row \x7b display: flex; gap: 12px; margin-top: 16px; flex-wrap: wrap; \x7d
.link-btn \x7b display: inline-flex; align-items: center; gap: 6px; padding: 8px 16px; background: var(--bg-card); border: 1px solid var(--border); border-radius: 6px; color: var(--text-dim); text-decoration: none; font-size: 13px; font-family: 'JetBrains Mono', monospace; transition: all 0.2s; \x7d
.link-btn:hover \x7b border-color: var(--accent); color: var(--accent); \x7d
.link-btn svg \x7b width: 16px; height: 16px; \x7d
.section-title \x7b font-family: 'Fraunces', serif; font-size: 22px; font-weight: 600; margin: 48px 0 8px; color: var(--text); \x7d
.section-desc \x7b color: var(--text-dim); font-size: 14px; margin-bottom: 24px; \x7d
.active-filter \x7b display: none; align-items: center; gap: 12px; padding: 12px 16px; background: var(--accent-glow); border: 1px solid var(--border-active); border-radius: var(--radius); margin-bottom: 20px; flex-wrap: wrap; \x7d
.active-filter.visible \x7b display: flex; \x7d
.filter-tag \x7b display: inline-flex; align-items: center; gap: 6px; background: var(--bg-card); border: 1px solid var(--border-active); padding: 4px 12px; border-radius: 20px; font-size: 13px; color: var(--accent); font-family: 'JetBrains Mono', monospace; \x7d
.filter-tag .type-label \x7b font-size: 10px; text-transform: uppercase; letter-spacing: 1px; color: var(--text-muted); margin-right: 4px; \x7d
.clear-btn \x7b margin-left: auto; background: none; border: 1px solid var(--border); color: var(--text-dim); padding: 4px 12px; border-radius: 20px; font-size: 12px; cursor: pointer; font-family: 'DM Sans', sans-serif; transition: all 0.2s; \x7d
.clear-btn:hover \x7b border-color: var(--rose); color: var(--rose); \x7d
.heatmap-wrap \x7b overflow-x: auto; border: 1px solid var(--border); border-radius: var(--radius); background: var(--bg-surface); padding: 2px; \x7d
.heatmap-wrap::-webkit-scrollbar \x7b height: 8px; \x7d
.heatmap-wrap::-webkit-scrollbar-track \x7b background: var(--bg-card); \x7d
.heatmap-wrap::-webkit-scrollbar-thumb \x7b background: var(--border); border-radius: 4px; \x7d
table.heatmap \x7b border-collapse: separate; border-spacing: 2px; width: max-content; min-width: 100%; \x7d
table.heatmap th \x7b font-family: 'JetBrains Mono', monospace; font-size: 11px; font-weight: 500; color: var(--text-dim); padding: 8px 6px; white-space: nowrap; position: sticky; background: var(--bg-surface); z-index: 2; cursor: pointer; transition: color 0.2s; user-select: none; \x7d
table.heatmap th:hover \x7b color: var(--accent); \x7d
table.heatmap th.col-header \x7b top: 0; writing-mode: vertical-lr; transform: rotate(180deg); text-align: left; height: 160px; vertical-align: bottom; \x7d
table.heatmap th.row-header \x7b left: 0; text-align: right; padding-right: 12px; max-width: 220px; white-space: nowrap; overflow: hidden; text-overflow: ellipsis; \x7d
table.heatmap th.corner \x7b top: 0; left: 0; z-index: 3; \x7d
table.heatmap th.active \x7b color: var(--accent); font-weight: 700; \x7d
table.heatmap td \x7b width: 44px; height: 38px; text-align: center; font-family: 'JetBrains Mono', monospace; font-size: 12px; font-weight: 500; border-radius: 4px; cursor: pointer; transition: all 0.15s; position: relative; user-select: none; \x7d
table.heatmap td:hover \x7b outline: 2px solid var(--accent); outline-offset: -1px; z-index: 1; \x7d
table.heatmap td.active \x7b outline: 2px solid #fff; outline-offset: -1px; z-index: 1; \x7d
table.heatmap td.zero \x7b color: var(--text-muted); opacity: 0.4; \x7d
table.heatmap td.row-total, table.heatmap th.total-header \x7b font-weight: 600; border-left: 2px solid var(--border); color: var(--text-dim); background: var(--bg-surface) !important; cursor: default; \x7d
table.heatmap td.row-total:hover \x7b outline: none; \x7d
.paper-count \x7b font-family: 'JetBrains Mono', monospace; font-size: 13px; color: var(--text-muted); margin-bottom: 16px; \x7d
.paper-count strong \x7b color: var(--accent); \x7d
.search-box \x7b width: 100%; max-width: 400px; padding: 10px 16px; background: var(--bg-card); border: 1px solid var(--border); border-radius: var(--radius); color: var(--text); font-family: 'DM Sans', sans-serif; font-size: 14px; margin-bottom: 20px; transition: border-color 0.2s; \x7d
.search-box:focus \x7b outline: none; border-color: var(--accent); \x7d
.search-box::placeholder \x7b color: var(--text-muted); \x7d
.toggle-row \x7b display: flex; gap: 8px; margin-bottom: 16px; flex-wrap: wrap; \x7d
.toggle-btn \x7b padding: 6px 14px; font-size: 12px; font-family: 'JetBrains Mono', monospace; background: var(--bg-card); border: 1px solid var(--border); border-radius: 20px; color: var(--text-dim); cursor: pointer; transition: all 0.2s; \x7d
.toggle-btn:hover \x7b border-color: var(--text-dim); \x7d
.toggle-btn.active \x7b border-color: var(--accent); color: var(--accent); background: var(--accent-glow); \x7d
.papers-grid \x7b display: flex; flex-direction: column; gap: 8px; margin-bottom: 80px; \x7d
.paper-card \x7b padding: 16px 20px; background: var(--bg-card); border: 1px solid var(--border); border-radius: var(--radius); transition: all 0.2s; animation: fadeIn 0.3s ease; \x7d
@keyframes fadeIn \x7b from \x7b opacity: 0; transform: translateY(8px); \x7d to \x7b opacity: 1; transform: translateY(0); \x7d \x7d
.paper-card:hover \x7b border-color: #2a3a55; background: var(--bg-card-hover); \x7d
.paper-title \x7b font-size: 14px; font-weight: 500; line-height: 1.45; margin-bottom: 8px; \x7d
.paper-title a \x7b color: var(--text); text-decoration: none; transition: color 0.2s; \x7d
.paper-title a:hover \x7b color: var(--accent); \x7d
.paper-meta \x7b display: flex; gap: 8px; flex-wrap: wrap; margin-bottom: 8px; \x7d
.tag \x7b font-family: 'JetBrains Mono', monospace; font-size: 10px; padding: 3px 8px; border-radius: 4px; letter-spacing: 0.3px; \x7d
.tag-app \x7b background: rgba(52,211,153,0.12); color: var(--green); border: 1px solid rgba(52,211,153,0.2); \x7d
.tag-meth \x7b background: rgba(59,130,246,0.12); color: #60a5fa; border: 1px solid rgba(59,130,246,0.2); \x7d
.tag-date \x7b background: rgba(251,191,36,0.08); color: var(--amber); border: 1px solid rgba(251,191,36,0.15); \x7d
.tag-review \x7b background: rgba(248,113,113,0.1); color: var(--rose); border: 1px solid rgba(248,113,113,0.2); \x7d
.paper-summary \x7b font-size: 13px; color: var(--text-dim); line-height: 1.55; \x7d
.no-results \x7b text-align: center; padding: 48px 20px; color: var(--text-muted); font-size: 14px; \x7d
footer \x7b padding: 32px 0; border-top: 1px solid var(--border); color: var(--text-muted); font-size: 12px; text-align: center; \x7d
footer a \x7b color: var(--text-dim); text-decoration: none; \x7d
footer a:hover \x7b color: var(--accent); \x7d
@media (max-width: 768px) \x7b .container \x7b padding: 0 12px; \x7d header \x7b padding: 32px 0 24px; \x7d .stats-row \x7b gap: 20px; \x7d .stat-value \x7b font-size: 22px; \x7d \x7d
</style>
</head>
<body>
<div class=\"container\">
  <header>
    <div class=\"eyebrow\">Open Research Compendium</div>
    <h1>AI/ML in <span>Pharmacometrics</span></h1>
    <p class=\"subtitle\">An interactive explorer of research papers on artificial intelligence and machine learning applications in pharmacometrics and clinical pharmacology.</p>
    <div class=\"stats-row\" id=\"stats\"></div>
    <div class=\"links-row\">
      <a href=\"https://github.com/victoriapb/awesome-ai-ml-pharmacometrics/\" class=\"link-btn\" target=\"_blank\">
        <svg viewBox=\"0 0 24 24\" fill=\"currentColor\"><path d=\"M12 0C5.37 0 0 5.37 0 12c0 5.31 3.435 9.795 8.205 11.385.6.105.825-.255.825-.57 0-.285-.015-1.23-.015-2.235-3.015.555-3.795-.735-4.035-1.41-.135-.345-.72-1.41-1.23-1.695-.42-.225-1.02-.78-.015-.795.945-.015 1.62.87 1.845 1.23 1.08 1.815 2.805 1.305 3.495.99.105-.78.42-1.305.765-1.605-2.67-.3-5.46-1.335-5.46-5.925 0-1.305.465-2.385 1.23-3.225-.12-.3-.54-1.53.12-3.18 0 0 1.005-.315 3.3 1.23.96-.27 1.98-.405 3-.405s2.04.135 3 .405c2.295-1.56 3.3-1.23 3.3-1.23.66 1.65.24 2.88.12 3.18.765.84 1.23 1.905 1.23 3.225 0 4.605-2.805 5.625-5.475 5.925.435.375.81 1.095.81 2.22 0 1.605-.015 2.895-.015 3.3 0 .315.225.69.825.57A12.02 12.02 0 0024 12c0-6.63-5.37-12-12-12z\"/></svg>
        GitHub
      </a>
      <a href=\"https://www.zotero.org/groups/6377183/ai-ml-pharmacometrics/library\" class=\"link-btn\" target=\"_blank\">
        <svg viewBox=\"0 0 24 24\" fill=\"currentColor\"><path d=\"M3 3h18v2H6.5L18 17.5V18H3v-2h13L4 4.5V3z\"/></svg>
        Zotero Library
      </a>
    </div>
  </header>
  <h2 class=\"section-title\">Research Landscape</h2>
  <p class=\"section-desc\">Click any cell to filter papers by application Ã— methodology. Click row/column headers to filter by a single dimension.</p>
  <div class=\"active-filter\" id=\"activeFilter\">
    <span style=\"font-size:12px; color:var(--text-dim);\">Filtering:</span>
    <div id=\"filterTags\"></div>
    <button class=\"clear-btn\" onclick=\"clearFilters()\">Clear all</button>
  </div>
  <div class=\"heatmap-wrap\"><table class=\"heatmap\" id=\"heatmap\"></table></div>
  <h2 class=\"section-title\" id=\"papersSection\">Papers</h2>
  <input type=\"text\" class=\"search-box\" id=\"searchBox\" placeholder=\"Search titles, summaries...\">
  <div class=\"toggle-row\" id=\"toggleRow\">
    <button class=\"toggle-btn active\" onclick=\"toggleReview('all')\">All papers</button>
    <button class=\"toggle-btn\" onclick=\"toggleReview('original')\">Original research</button>
    <button class=\"toggle-btn\" onclick=\"toggleReview('review')\">Reviews & perspectives</button>
  </div>
  <div class=\"paper-count\" id=\"paperCount\"></div>
  <div class=\"papers-grid\" id=\"papersGrid\"></div>
</div>
<footer><div class=\"container\">Built for <a href=\"https://github.com/victoriapb/awesome-ai-ml-pharmacometrics/\" target=\"_blank\">awesome-ai-ml-pharmacometrics</a> Â· Data curated via PubMed + Claude classification Â· Last updated <span id=\"lastUpdated\"></span></div></footer>
<script>
const DATA = "

/-- The HTML template after the insertion point (build-site.py lines
280-368, the string after `compact_json +`). -/
def htmlSuffix : String :=
  ";
let state = \x7b selectedApp: null, selectedMeth: null, searchQuery: '', reviewFilter: 'all' \x7d;
function init() \x7b
  document.getElementById('lastUpdated').textContent = DATA.lastUpdated;
  const nonReview = DATA.papers.filter(p => !p.is_review);
  const reviews = DATA.papers.filter(p => p.is_review);
  document.getElementById('stats').innerHTML = `
    <div class=\"stat\"><span class=\"stat-value\">$\x7bDATA.papers.length\x7d</span><span class=\"stat-label\">Total papers</span></div>
    <div class=\"stat\"><span class=\"stat-value\">$\x7bnonReview.length\x7d</span><span class=\"stat-label\">Original research</span></div>
    <div class=\"stat\"><span class=\"stat-value\">$\x7breviews.length\x7d</span><span class=\"stat-label\">Reviews & perspectives</span></div>
    <div class=\"stat\"><span class=\"stat-value\">$\x7bDATA.applications.length\x7d</span><span class=\"stat-label\">Application areas</span></div>
    <div class=\"stat\"><span class=\"stat-value\">$\x7bDATA.methodologies.length\x7d</span><span class=\"stat-label\">Methodology types</span></div>`;
  renderHeatmap(); renderPapers();
  document.getElementById('searchBox').addEventListener('input', (e) => \x7b state.searchQuery = e.target.value.toLowerCase(); renderPapers(); \x7d);
\x7d
function getHeatColor(value, maxVal) \x7b
  if (value === 0) return 'var(--heat-0)';
  const ratio = Math.log(value + 1) / Math.log(maxVal + 1);
  if (ratio < 0.15) return 'var(--heat-1)';
  if (ratio < 0.3) return 'var(--heat-2)';
  if (ratio < 0.5) return 'var(--heat-3)';
  if (ratio < 0.75) return 'var(--heat-4)';
  return 'var(--heat-5)';
\x7d
function escAttr(s) \x7b return s.replace(/'/g, \"\\\\'\").replace(/\"/g, '&quot;'); \x7d
function renderHeatmap() \x7b
  const apps = DATA.applications, meths = DATA.methodologies, matrix = DATA.matrix;
  let maxVal = 0;
  apps.forEach(app => meths.forEach(meth => \x7b maxVal = Math.max(maxVal, matrix[app]?.[meth] || 0); \x7d));
  let html = '<thead><tr><th class=\"corner\"></th>';
  meths.forEach(meth => \x7b html += `<th class=\"col-header $\x7bstate.selectedMeth === meth ? 'active' : ''\x7d\" onclick=\"clickMeth('$\x7bescAttr(meth)\x7d')\" title=\"$\x7bmeth\x7d\">$\x7bmeth\x7d</th>`; \x7d);
  html += '<th class=\"col-header total-header\">Total</th></tr></thead><tbody>';
  apps.forEach(app => \x7b
    html += `<tr><th class=\"row-header $\x7bstate.selectedApp === app ? 'active' : ''\x7d\" onclick=\"clickApp('$\x7bescAttr(app)\x7d')\" title=\"$\x7bapp\x7d\">$\x7bapp\x7d</th>`;
    let rowTotal = 0;
    meths.forEach(meth => \x7b
      const val = matrix[app]?.[meth] || 0; rowTotal += val;
      const isActive = state.selectedApp === app && state.selectedMeth === meth;
      html += `<td class=\"$\x7bval === 0 ? 'zero' : ''\x7d $\x7bisActive ? 'active' : ''\x7d\" style=\"background:$\x7bgetHeatColor(val, maxVal)\x7d;color:$\x7bval === 0 ? 'var(--text-muted)' : '#fff'\x7d\" onclick=\"clickCell('$\x7bescAttr(app)\x7d','$\x7bescAttr(meth)\x7d')\" title=\"$\x7bapp\x7d Ã— $\x7bmeth\x7d: $\x7bval\x7d papers\">$\x7bval\x7d</td>`;
    \x7d);
    html += `<td class=\"row-total\">$\x7browTotal\x7d</td></tr>`;
  \x7d);
  html += '</tbody>';
  document.getElementById('heatmap').innerHTML = html;
\x7d
function clickCell(app, meth) \x7b if (state.selectedApp === app && state.selectedMeth === meth) \x7b clearFilters(); return; \x7d state.selectedApp = app; state.selectedMeth = meth; update(); \x7d
function clickApp(app) \x7b if (state.selectedApp === app && !state.selectedMeth) \x7b clearFilters(); return; \x7d state.selectedApp = app; state.selectedMeth = null; update(); \x7d
function clickMeth(meth) \x7b if (state.selectedMeth === meth && !state.selectedApp) \x7b clearFilters(); return; \x7d state.selectedApp = null; state.selectedMeth = meth; update(); \x7d
function clearFilters() \x7b state.selectedApp = null; state.selectedMeth = null; update(); \x7d
function update() \x7b renderHeatmap(); renderFilterBar(); renderPapers(); \x7d
function renderFilterBar() \x7b
  const el = document.getElementById('activeFilter'), tags = document.getElementById('filterTags');
  if (!state.selectedApp && !state.selectedMeth) \x7b el.classList.remove('visible'); return; \x7d
  el.classList.add('visible');
  let html = '';
  if (state.selectedApp) html += `<span class=\"filter-tag\"><span class=\"type-label\">App</span>$\x7bstate.selectedApp\x7d</span>`;
  if (state.selectedMeth) html += `<span class=\"filter-tag\"><span class=\"type-label\">Method</span>$\x7bstate.selectedMeth\x7d</span>`;
  tags.innerHTML = html;
\x7d
function toggleReview(mode) \x7b state.reviewFilter = mode; document.querySelectorAll('.toggle-btn').forEach(b => b.classList.remove('active')); event.target.classList.add('active'); renderPapers(); \x7d
function parsePubDate(d) \x7b
  if (!d) return 0;
  const months = \x7bJan:0,Feb:1,Mar:2,Apr:3,May:4,Jun:5,Jul:6,Aug:7,Sep:8,Oct:9,Nov:10,Dec:11\x7d;
  const m = d.match(/(\\d\x7b4\x7d)(\\w\x7b3\x7d)?(\\d\x7b1,2\x7d)?/);
  if (!m) return 0;
  return new Date(parseInt(m[1]), m[2] ? (months[m[2]] || 0) : 0, m[3] ? parseInt(m[3]) : 1).getTime();
\x7d
function getFilteredPapers() \x7b
  let papers = DATA.papers;
  if (state.selectedApp) papers = papers.filter(p => p.applications.includes(state.selectedApp));
  if (state.selectedMeth) papers = papers.filter(p => p.methodologies.includes(state.selectedMeth));
  if (state.reviewFilter === 'original') papers = papers.filter(p => !p.is_review);
  else if (state.reviewFilter === 'review') papers = papers.filter(p => p.is_review);
  if (state.searchQuery) papers = papers.filter(p => p.title.toLowerCase().includes(state.searchQuery) || p.summary.toLowerCase().includes(state.searchQuery));
  papers.sort((a, b) => parsePubDate(b.published) - parsePubDate(a.published));
  return papers;
\x7d
function renderPapers() \x7b
  const papers = getFilteredPapers();
  document.getElementById('paperCount').innerHTML = `Showing <strong>$\x7bpapers.length\x7d</strong> of $\x7bDATA.papers.length\x7d papers`;
  const grid = document.getElementById('papersGrid');
  if (papers.length === 0) \x7b grid.innerHTML = '<div class=\"no-results\">No papers match the current filters.</div>'; return; \x7d
  const shown = papers.slice(0, 100);
  grid.innerHTML = shown.map(p => `<div class=\"paper-card\"><div class=\"paper-title\"><a href=\"$\x7bp.url\x7d\" target=\"_blank\">$\x7bp.title\x7d</a></div><div class=\"paper-meta\">$\x7bp.published ? `<span class=\"tag tag-date\">$\x7bp.published\x7d</span>` : ''\x7d$\x7bp.is_review ? '<span class=\"tag tag-review\">Review</span>' : ''\x7d$\x7bp.applications.map(a => `<span class=\"tag tag-app\">$\x7ba\x7d</span>`).join('')\x7d$\x7bp.methodologies.map(m => `<span class=\"tag tag-meth\">$\x7bm\x7d</span>`).join('')\x7d</div>$\x7bp.summary ? `<div class=\"paper-summary\">$\x7bp.summary\x7d</div>` : ''\x7d</div>`).join('') + (papers.length > 100 ? `<div class=\"no-results\">Showing first 100 of $\x7bpapers.length\x7d results. Use search to narrow down.</div>` : '');
\x7d
init();
</script>
</body>
</html>"

/-- `generate_html` (build-site.py lines 129-369): the fixed template prefix,
the compact JSON of the dataset inserted verbatim, the fixed template suffix. -/
def generate_html (data : Dataset) : String :=
  htmlPrefix ++ compactJson data ++ htmlSuffix

/-- The whole pipeline for a fixed current date and a given set-enumeration
order: document text in, page text out (build-site.py `main`, minus file I/O). -/
def buildSiteWith (setList : List String → List String) (content today : String) : String :=
  generate_html (parseReadmeWith setList content today)

/-! ### Auxiliary definitions used by the theorems -/

/-- Row lookup in the matrix association list. -/
def lookupRow (mat : List (String × List (String × Nat))) (a : String) :
    Option (List (String × Nat)) :=
  (mat.find? (fun r => decide (r.1 = a))).map Prod.snd

/-- Cell lookup in a matrix row. -/
def cellLookup (row : List (String × Nat)) (m : String) : Option Nat :=
  (row.find? (fun c => decide (c.1 = m))).map Prod.snd

/-- `matrix[app][meth]` read back from the association-list matrix. -/
def matLookup (mat : List (String × List (String × Nat))) (a m : String) : Option Nat :=
  (lookupRow mat a).bind (fun row => cellLookup row m)

/-- The `seen_urls` dict contents determined by a paper list: each url mapped
to its index (offset by `n`). -/
def urlIndexFrom (n : Nat) : List Paper → List (String × Nat)
  | [] => []
  | p :: ps => (p.url, n) :: urlIndexFrom (n + 1) ps

/-- The scan-state invariant: `paper_id` counts the papers, `seen_urls` is
exactly the url → index map of the collected papers, and the collected urls
are pairwise distinct. -/
def StInv (st : PState) : Prop :=
  st.paper_id = st.papers.length ∧
  st.seen_urls = urlIndexFrom 0 st.papers ∧
  (st.papers.map Paper.url).Nodup

/-- Override a paper's identifier. -/
def withId (n : Nat) (p : Paper) : Paper :=
  { p with id := n }

/-- Two papers equal in every field except that the methodology lists may be
permutations of one another (the only trace of Python's set-enumeration
order). -/
def PaperSim (p q : Paper) : Prop :=
  p.id = q.id ∧ p.title = q.title ∧ p.url = q.url ∧
  p.methodologies.Perm q.methodologies ∧ p.applications = q.applications ∧
  p.published = q.published ∧ p.summary = q.summary ∧ p.is_review = q.is_review

/-- A second valid enumeration order for `list(set(...))`: the canonical one
reversed (as under another hash seed). -/
def revDedup (l : List String) : List String :=
  l.dedup.reverse

/-- A two-methodology document on which the enumeration order of
`list(set(...))` becomes visible in the output text. -/
def docTwoMeths : String :=
  "\n## Oncology\n- **[Paper A](http://a)**\n  - Methodology: Neural ODE, Tree Ensemble\n"

/-! ### A JSON text parser (for the round-trip property)

`json.loads` applied to the embedded dataset is modelled by a recursive
descent parser over the character list, covering exactly the grammar
`json.dumps` emits for this dataset (strings with the standard escapes and
surrogate pairs, non-negative integers, booleans, arrays, objects). -/

/-- The value of one lowercase-hex digit. -/
def hexVal (c : Char) : Option Nat :=
  if 48 ≤ c.toNat ∧ c.toNat ≤ 57 then some (c.toNat - 48)
  else if 97 ≤ c.toNat ∧ c.toNat ≤ 102 then some (c.toNat - 87)
  else none

/-- Decode one escape sequence (the input starts right after the backslash):
the standard short escapes, and `\uXXXX` with surrogate-pair recombination;
returns the decoded character and the remaining input. -/
def escVal : List Char → Option (Char × List Char)
  | [] => none
  | e :: rest2 =>
    if e = '"' then some ('"', rest2)
    else if e = '\\' then some ('\\', rest2)
    else if e = 'n' then some ('\n', rest2)
    else if e = 'r' then some ('\r', rest2)
    else if e = 't' then some ('\t', rest2)
    else if e = 'b' then some ('\x08', rest2)
    else if e = 'f' then some ('\x0c', rest2)
    else if e = 'u' then
      match rest2 with
      | h1 :: h2 :: h3 :: h4 :: rest3 =>
        match hexVal h1, hexVal h2, hexVal h3, hexVal h4 with
        | some a, some b, some c2, some d =>
          if a * 4096 + b * 256 + c2 * 16 + d < 0xd800 ∨
              0xe000 ≤ a * 4096 + b * 256 + c2 * 16 + d then
            some (Char.ofNat (a * 4096 + b * 256 + c2 * 16 + d), rest3)
          else if a * 4096 + b * 256 + c2 * 16 + d < 0xdc00 then
            match rest3 with
            | '\\' :: 'u' :: g1 :: g2 :: g3 :: g4 :: rest4 =>
              match hexVal g1, hexVal g2, hexVal g3, hexVal g4 with
              | some a2, some b2, some c3, some d2 =>
                if 0xdc00 ≤ a2 * 4096 + b2 * 256 + c3 * 16 + d2 ∧
                    a2 * 4096 + b2 * 256 + c3 * 16 + d2 < 0xe000 then
                  some (Char.ofNat (0x10000 +
                      (a * 4096 + b * 256 + c2 * 16 + d - 0xd800) * 0x400 +
                      (a2 * 4096 + b2 * 256 + c3 * 16 + d2 - 0xdc00)), rest4)
                else none
              | _, _, _, _ => none
            | _ => none
          else none
        | _, _, _, _ => none
      | _ => none
    else none

/-- Parse the body of a JSON string literal (after the opening quote), up to
and including the closing quote: the standard short escapes, `\uXXXX` with
surrogate-pair recombination, and literal characters.  Fueled (one unit per
decoded character); the input length is always enough. -/
def parseJStr : Nat → List Char → Option (List Char × List Char)
  | 0, _ => none
  | _, [] => none
  | Nat.succ fuel, c :: rest =>
    if c = '"' then some ([], rest)
    else if c = '\\' then
      match escVal rest with
      | some dr => (parseJStr fuel dr.2).map (fun sr => (dr.1 :: sr.1, sr.2))
      | none => none
    else (parseJStr fuel rest).map (fun sr => (c :: sr.1, sr.2))

/-- Parse a run of decimal digits into `acc`. -/
def parseNumAux (acc : Nat) : List Char → Nat × List Char
  | [] => (acc, [])
  | c :: cs =>
    if c.isDigit then parseNumAux (acc * 10 + (c.toNat - 48)) cs
    else (acc, c :: cs)

mutual

/-- Parse one JSON value (fueled recursive descent). -/
def parseJval : Nat → List Char → Option (Jval × List Char)
  | 0, _ => none
  | Nat.succ fuel, cs =>
    match cs with
    | [] => none
    | c :: rest =>
      if c = '"' then
        (parseJStr rest.length rest).map (fun sr => (Jval.str ⟨sr.1⟩, sr.2))
      else if c = 't' then
        match stripPre ['r', 'u', 'e'] rest with
        | some r => some (Jval.bool true, r)
        | none => none
      else if c = 'f' then
        match stripPre ['a', 'l', 's', 'e'] rest with
        | some r => some (Jval.bool false, r)
        | none => none
      else if c = '[' then
        match rest with
        | ']' :: r => some (Jval.arr [], r)
        | _ =>
          match parseElems fuel rest with
          | some xsr => some (Jval.arr xsr.1, xsr.2)
          | none => none
      else if c = '\x7b' then
        match rest with
        | '\x7d' :: r => some (Jval.obj [], r)
        | _ =>
          match parseMembers fuel rest with
          | some kvr => some (Jval.obj kvr.1, kvr.2)
          | none => none
      else if c.isDigit then
        some (Jval.num (parseNumAux (c.toNat - 48) rest).1, (parseNumAux (c.toNat - 48) rest).2)
      else none

/-- Parse the elements of a non-empty array, consuming the closing bracket. -/
def parseElems : Nat → List Char → Option (List Jval × List Char)
  | 0, _ => none
  | Nat.succ fuel, cs =>
    match parseJval fuel cs with
    | none => none
    | some jr =>
      match jr.2 with
      | ',' :: r => (parseElems fuel r).map (fun xsr => (jr.1 :: xsr.1, xsr.2))
      | ']' :: r => some ([jr.1], r)
      | _ => none

/-- Parse the members of a non-empty object, consuming the closing brace. -/
def parseMembers : Nat → List Char → Option (List (String × Jval) × List Char)
  | 0, _ => none
  | Nat.succ fuel, cs =>
    match cs with
    | '"' :: rest =>
      match parseJStr rest.length rest with
      | none => none
      | some kr =>
        match kr.2 with
        | ':' :: r =>
          match parseJval fuel r with
          | none => none
          | some vr =>
            match vr.2 with
            | ',' :: r2 => (parseMembers fuel r2).map (fun kvr => ((⟨kr.1⟩, vr.1) :: kvr.1, kvr.2))
            | '\x7d' :: r2 => some ([(⟨kr.1⟩, vr.1)], r2)
            | _ => none
        | _ => none
    | _ => none

end

/-- `json.loads` of a complete text: parse one value and require the input to
be fully consumed. -/
def parseJson (cs : List Char) : Option Jval :=
  match parseJval cs.length cs with
  | some (j, []) => some j
  | _ => none

mutual

/-- Fuel needed by `parseJval` for a value. -/
def sizeJ : Jval → Nat
  | .str _ => 1
  | .num _ => 1
  | .bool _ => 1
  | .arr xs => 1 + sizeL xs
  | .obj kvs => 1 + sizeO kvs

/-- Fuel needed by `parseElems` for an element list. -/
def sizeL : List Jval → Nat
  | [] => 1
  | [x] => 1 + sizeJ x
  | x :: y :: xs => 1 + max (sizeJ x) (sizeL (y :: xs))

/-- Fuel needed by `parseMembers` for a member list. -/
def sizeO : List (String × Jval) → Nat
  | [] => 1
  | [kv] => 1 + sizeJ kv.2
  | kv :: kv2 :: kvs => 1 + max (sizeJ kv.2) (sizeO (kv2 :: kvs))

end

/-- The character after a rendered number is never a digit in valid JSON
(a separator, a bracket, or the end of text). -/
def headNotDigit : List Char → Prop
  | [] => True
  | c :: _ => c.isDigit = false

/-- The number of digits `decDigits` produces (same recursion). -/
def ndig : Nat → Nat → Nat
  | 0, _ => 1
  | Nat.succ fuel, n => if n < 10 then 1 else ndig fuel (n / 10) + 1

/-! ### Theorems -/

theorem hasMarker_tail (c : Char) (cs : List Char) (h : hasMarker (c :: cs) = false) :
    hasMarker cs = false := by
  rw [hasMarker.eq_def] at h
  split at h <;> simp_all

theorem splitSections_of_no_marker (cs : List Char) (h : hasMarker cs = false) :
    splitSections cs = [cs] := by
  induction cs with
  | nil => rfl
  | cons c cs ih =>
    have htail := hasMarker_tail c cs h
    rw [splitSections.eq_def]
    split
    · rename_i heq
      simp at heq
    · rename_i rest heq
      rw [heq] at h
      simp [hasMarker] at h
    · rename_i a b hne heq
      injection heq with h1 h2
      subst h1; subst h2
      rw [ih htail]

theorem mem_cleanMeths (x : String) (ms : List String) :
    x ∈ cleanMeths ms ↔
      (x ∈ ms ∧ x ≠ "Machine Learning" ∧ x ≠ "Artificial Intelligence") ∨
      (x = "Machine learning" ∧ "Machine Learning" ∈ ms) := by
  rw [cleanMeths, List.mem_filterMap]
  constructor
  · rintro ⟨m, hm, heq⟩
    by_cases h1 : m = "Machine Learning"
    · subst h1
      simp [meth_remap] at heq
      exact Or.inr ⟨heq.symm, hm⟩
    · by_cases h2 : m = "Artificial Intelligence"
      · subst h2; simp [meth_remap] at heq
      · simp [meth_remap, h1, h2] at heq
        subst heq
        exact Or.inl ⟨hm, h1, h2⟩
  · rintro (⟨hx, h1, h2⟩ | ⟨hx, hml⟩)
    · exact ⟨x, hx, by simp [meth_remap, h1, h2]⟩
    · exact ⟨"Machine Learning", hml, by simp [meth_remap, hx]⟩

theorem mem_normalizeMeths (x : String) (ms : List String) :
    x ∈ normalizeMeths ms ↔
      (x ∈ ms ∧ x ≠ "Machine Learning" ∧ x ≠ "Artificial Intelligence") ∨
      (x = "Machine learning" ∧ "Machine Learning" ∈ ms) := by
  rw [normalizeMeths, List.mem_dedup, mem_cleanMeths]

theorem papers_parse_readme (content today : String) :
    (parse_readme content today).papers =
      ((papersRaw content).map (normPaper List.dedup)).map tagReview := rfl

/-- C4: the methodology rename table is applied per tag before the
set-deduplication: `"Machine Learning"` is renamed to `"Machine learning"`,
`"Artificial Intelligence"` is dropped, all other tags pass through, and the
result carries no duplicates; a paper listing the alias and/or its canonical
target ends with exactly one `"Machine learning"`, a paper listing only the
dropped tag ends with the empty set, and every paper of the parsed output has
its methodology list of this shape. -/
theorem c4_methodology_remap (ms : List String) :
    (∀ x, x ∈ normalizeMeths ms ↔
      ((x ∈ ms ∧ x ≠ "Machine Learning" ∧ x ≠ "Artificial Intelligence") ∨
       (x = "Machine learning" ∧ "Machine Learning" ∈ ms))) ∧
    (normalizeMeths ms).Nodup ∧
    ("Machine Learning" ∈ ms ∨ "Machine learning" ∈ ms →
      (normalizeMeths ms).count "Machine learning" = 1) ∧
    normalizeMeths ["Artificial Intelligence"] = [] ∧
    (∀ content today p, p ∈ (parse_readme content today).papers →
      p.methodologies.Nodup ∧ "Machine Learning" ∉ p.methodologies ∧
      "Artificial Intelligence" ∉ p.methodologies ∧
      ∃ q ∈ papersRaw content, p.methodologies = normalizeMeths q.methodologies) := by
  refine ⟨fun x => mem_normalizeMeths x ms, List.nodup_dedup _, ?_, by decide, ?_⟩
  · intro h
    refine List.count_eq_one_of_mem (List.nodup_dedup _) ?_
    rw [mem_normalizeMeths]
    rcases h with h | h
    · exact Or.inr ⟨rfl, h⟩
    · by_cases hml : "Machine Learning" ∈ ms
      · exact Or.inr ⟨rfl, hml⟩
      · exact Or.inl ⟨h, by decide, by decide⟩
  · intro content today p hp
    rw [papers_parse_readme, List.mem_map] at hp
    obtain ⟨p₁, hp₁, rfl⟩ := hp
    rw [List.mem_map] at hp₁
    obtain ⟨q, hq, rfl⟩ := hp₁
    have hm : (tagReview (normPaper List.dedup q)).methodologies = normalizeMeths q.methodologies := rfl
    refine ⟨?_, ?_, ?_, q, hq, hm⟩
    · rw [hm]; exact List.nodup_dedup _
    · rw [hm, mem_normalizeMeths]
      rintro (⟨_, h, _⟩ | ⟨h, _⟩) <;> simp at h
    · rw [hm, mem_normalizeMeths]
      rintro (⟨_, _, h⟩ | ⟨h, _⟩) <;> simp at h

/-- C8: a line matching no recognized pattern leaves both the collected state
and the pending record unchanged (no error path exists); the three metadata
patterns have no effect when no record is pending; and a fresh record carries
the empty defaults for methodologies, published and summary. -/
theorem c8_unmatched_and_defaults (category : String) (st : PState) (cur : Option Paper)
    (line : List Char) :
    (title_match line = none → meth_match line = none → pub_match line = none →
      sum_match line = none → stepLine category (st, cur) line = (st, cur)) ∧
    (title_match line = none → stepLine category (st, none) line = (st, none)) ∧
    (∀ pid t u, (newPaper pid category t u).methodologies = [] ∧
      (newPaper pid category t u).published = "" ∧
      (newPaper pid category t u).summary = "") := by
  refine ⟨?_, ?_, ?_⟩
  · intro ht hm hp hs
    cases cur with
    | none => simp [stepLine, ht]
    | some p => simp [stepLine, ht, applyMeta, hm, hp, hs]
  · intro ht
    simp [stepLine, ht]
  · intro pid t u
    exact ⟨rfl, rfl, rfl⟩

theorem mem_collectApps (a : String) (papers : List Paper) :
    a ∈ collectApps papers ↔ ∃ p ∈ papers, a ∈ p.applications := by
  induction papers with
  | nil => simp [collectApps]
  | cons p ps ih => simp [collectApps, ih]

theorem mem_collectMeths (m : String) (papers : List Paper) :
    m ∈ collectMeths papers ↔ m ≠ "" ∧ ∃ p ∈ papers, m ∈ p.methodologies := by
  induction papers with
  | nil => simp [collectMeths]
  | cons p ps ih =>
    simp only [collectMeths, List.mem_append, List.mem_filter, ih, decide_eq_true_iff,
      List.mem_cons]
    constructor
    · rintro (⟨hm, hne⟩ | ⟨hne, q, hq, hm⟩)
      · exact ⟨hne, p, Or.inl rfl, hm⟩
      · exact ⟨hne, q, Or.inr hq, hm⟩
    · rintro ⟨hne, q, hq | hq, hm⟩
      · exact Or.inl ⟨hq ▸ hm, hne⟩
      · exact Or.inr ⟨hne, q, hq, hm⟩

theorem sortStrings_sorted (l : List String) : (sortStrings l).Sorted (· ≤ ·) :=
  List.sorted_insertionSort _ l

theorem sortStrings_perm (l : List String) : List.Perm (sortStrings l) l :=
  List.perm_insertionSort _ l

theorem mem_all_apps (a : String) (papers : List Paper) :
    a ∈ all_apps papers ↔ ∃ p ∈ papers, a ∈ p.applications := by
  rw [all_apps, ← mem_collectApps, ← List.mem_dedup (l := collectApps papers)]
  exact (sortStrings_perm _).mem_iff

theorem mem_all_meths (m : String) (papers : List Paper) :
    m ∈ all_meths papers ↔ m ≠ "" ∧ ∃ p ∈ papers, m ∈ p.methodologies := by
  rw [all_meths, ← mem_collectMeths, ← List.mem_dedup (l := collectMeths papers)]
  exact (sortStrings_perm _).mem_iff

theorem all_apps_nodup (papers : List Paper) : (all_apps papers).Nodup :=
  (sortStrings_perm _).nodup_iff.mpr (List.nodup_dedup _)

theorem all_meths_nodup (papers : List Paper) : (all_meths papers).Nodup :=
  (sortStrings_perm _).nodup_iff.mpr (List.nodup_dedup _)

theorem find?_map_pair {β : Type} (f : String → β) (l : List String) (a : String)
    (h : a ∈ l) :
    (l.map (fun x => (x, f x))).find? (fun kv => decide (kv.1 = a)) = some (a, f a) := by
  induction l with
  | nil => simp at h
  | cons x xs ih =>
    by_cases hx : x = a
    · subst hx
      simp [List.find?]
    · rcases List.mem_cons.mp h with h' | h'
      · exact absurd h'.symm hx
      · simp [List.find?, hx, ih h']

theorem lookupRow_buildMatrix (papers : List Paper) (apps meths : List String) (a : String)
    (ha : a ∈ apps) :
    lookupRow (buildMatrix papers apps meths) a =
      some (meths.map (fun m => (m, countPapers papers a m))) := by
  rw [buildMatrix, lookupRow]
  rw [find?_map_pair (fun app => meths.map (fun m => (m, countPapers papers app m))) apps a ha]
  rfl

theorem cellLookup_row (papers : List Paper) (a : String) (meths : List String) (m : String)
    (hm : m ∈ meths) :
    cellLookup (meths.map (fun m' => (m', countPapers papers a m'))) m =
      some (countPapers papers a m) := by
  rw [cellLookup, find?_map_pair (fun m' => countPapers papers a m') meths m hm]
  rfl

/-- C5: the aggregate fields are the sorted distinct label sets, the matrix is
dense over their full cross product with `matrix[app][meth]` the exact count
of papers carrying both labels, the empty collection yields empty aggregates
and an empty matrix, and the parsed dataset's fields are exactly these
aggregates of its papers. -/
theorem c5_aggregates_and_matrix (papers : List Paper) :
    (all_apps papers).Sorted (· ≤ ·) ∧ (all_apps papers).Nodup ∧
    (∀ a, a ∈ all_apps papers ↔ ∃ p ∈ papers, a ∈ p.applications) ∧
    (all_meths papers).Sorted (· ≤ ·) ∧ (all_meths papers).Nodup ∧
    (∀ m, m ∈ all_meths papers ↔ m ≠ "" ∧ ∃ p ∈ papers, m ∈ p.methodologies) ∧
    (∀ a m, a ∈ all_apps papers → m ∈ all_meths papers →
      matLookup (buildMatrix papers (all_apps papers) (all_meths papers)) a m =
        some ((papers.filter (fun p =>
          decide (a ∈ p.applications) && decide (m ∈ p.methodologies))).length)) ∧
    (papers = [] → all_apps papers = [] ∧ all_meths papers = [] ∧
      buildMatrix papers (all_apps papers) (all_meths papers) = []) ∧
    (∀ content today,
      (parse_readme content today).applications = all_apps (parse_readme content today).papers ∧
      (parse_readme content today).methodologies = all_meths (parse_readme content today).papers ∧
      (parse_readme content today).matrix =
        buildMatrix (parse_readme content today).papers
          (all_apps (parse_readme content today).papers)
          (all_meths (parse_readme content today).papers)) := by
  refine ⟨sortStrings_sorted _, all_apps_nodup papers, fun a => mem_all_apps a papers,
    sortStrings_sorted _, all_meths_nodup papers, fun m => mem_all_meths m papers,
    ?_, ?_, fun content today => ⟨rfl, rfl, rfl⟩⟩
  · intro a m ha hm
    rw [matLookup, lookupRow_buildMatrix papers _ _ a ha]
    exact cellLookup_row papers a _ m hm
  · rintro rfl
    exact ⟨rfl, rfl, rfl⟩

theorem jStrList_map (l : List String) : jStrList (l.map Jval.str) = some l := by
  induction l with
  | nil => rfl
  | cons s xs ih => simp [jStrList, ih]

theorem decodePaper_encode (p : Paper) : decodePaper (encodePaper p) = some p := by
  simp [decodePaper, encodePaper, jLookup, jNum, jStr, jBool, jStrArr, jStrList_map]

theorem decodePapers_encode (ps : List Paper) :
    decodePapers (ps.map encodePaper) = some ps := by
  induction ps with
  | nil => rfl
  | cons p ps ih => simp [decodePapers, decodePaper_encode, ih]

theorem decodeRow_encode (row : List (String × Nat)) :
    decodeRow (row.map (fun kv => (kv.1, Jval.num kv.2))) = some row := by
  induction row with
  | nil => rfl
  | cons kv rest ih => simp [decodeRow, jNum, ih]

theorem decodeMatrix_encode (mat : List (String × List (String × Nat))) :
    decodeMatrix (mat.map (fun r => (r.1, encodeRow r.2))) = some mat := by
  induction mat with
  | nil => rfl
  | cons r rest ih =>
    simp only [encodeRow] at ih
    simp [decodeMatrix, encodeRow, decodeRow_encode, ih]

theorem char_valid_range (c : Char) :
    c.toNat < 0xd800 ∨ (0xe000 ≤ c.toNat ∧ c.toNat < 0x110000) := by
  rcases c.valid with h | h
  · exact Or.inl (by exact_mod_cast h)
  · exact Or.inr ⟨by exact_mod_cast h.1, by exact_mod_cast h.2⟩

theorem hexVal_hexDigit (d : Nat) (h : d < 16) : hexVal (hexDigit d) = some d := by
  interval_cases d <;> decide

theorem pjstr_quote (rest : List Char) (fuel : Nat) :
    parseJStr (fuel + 1) ('"' :: rest) = some ([], rest) := rfl

theorem pjstr_lit (c : Char) (rest : List Char) (fuel : Nat)
    (h1 : c ≠ '"') (h2 : c ≠ '\\') :
    parseJStr (fuel + 1) (c :: rest) =
      (parseJStr fuel rest).map (fun sr => (c :: sr.1, sr.2)) := by
  simp only [parseJStr]
  rw [if_neg h1, if_neg h2]

theorem pjstr_esc (rest : List Char) (fuel : Nat) (d : Char) (rest2 : List Char)
    (h : escVal rest = some (d, rest2)) :
    parseJStr (fuel + 1) ('\\' :: rest) =
      (parseJStr fuel rest2).map (fun sr => (d :: sr.1, sr.2)) := by
  simp only [parseJStr, if_true]
  rw [h, if_neg (by decide)]

theorem escVal_q (t : List Char) : escVal ('"' :: t) = some ('"', t) := rfl
theorem escVal_b (t : List Char) : escVal ('\\' :: t) = some ('\\', t) := rfl
theorem escVal_n (t : List Char) : escVal ('n' :: t) = some ('\n', t) := rfl
theorem escVal_r (t : List Char) : escVal ('r' :: t) = some ('\r', t) := rfl
theorem escVal_t (t : List Char) : escVal ('t' :: t) = some ('\t', t) := rfl
theorem escVal_bs (t : List Char) : escVal ('b' :: t) = some ('\x08', t) := rfl
theorem escVal_f (t : List Char) : escVal ('f' :: t) = some ('\x0c', t) := rfl

theorem escVal_u (a b c2 d : Nat) (t : List Char)
    (ha : a < 16) (hb : b < 16) (hc : c2 < 16) (hd : d < 16)
    (hr : a * 4096 + b * 256 + c2 * 16 + d < 0xd800 ∨
        0xe000 ≤ a * 4096 + b * 256 + c2 * 16 + d) :
    escVal ('u' :: hexDigit a :: hexDigit b :: hexDigit c2 :: hexDigit d :: t) =
      some (Char.ofNat (a * 4096 + b * 256 + c2 * 16 + d), t) := by
  simp only [escVal, reduceIte]
  rw [hexVal_hexDigit a ha, hexVal_hexDigit b hb, hexVal_hexDigit c2 hc, hexVal_hexDigit d hd]
  simp only [if_pos hr]
  simp

theorem escVal_u_pair (a b c2 d a2 b2 c3 d2 : Nat) (t : List Char)
    (ha : a < 16) (hb : b < 16) (hc : c2 < 16) (hd : d < 16)
    (ha2 : a2 < 16) (hb2 : b2 < 16) (hc2 : c3 < 16) (hd2 : d2 < 16)
    (h1 : 0xd800 ≤ a * 4096 + b * 256 + c2 * 16 + d)
    (h2 : a * 4096 + b * 256 + c2 * 16 + d < 0xdc00)
    (h3 : 0xdc00 ≤ a2 * 4096 + b2 * 256 + c3 * 16 + d2)
    (h4 : a2 * 4096 + b2 * 256 + c3 * 16 + d2 < 0xe000) :
    escVal ('u' :: hexDigit a :: hexDigit b :: hexDigit c2 :: hexDigit d ::
        '\\' :: 'u' :: hexDigit a2 :: hexDigit b2 :: hexDigit c3 :: hexDigit d2 :: t) =
      some (Char.ofNat (0x10000 + (a * 4096 + b * 256 + c2 * 16 + d - 0xd800) * 0x400 +
        (a2 * 4096 + b2 * 256 + c3 * 16 + d2 - 0xdc00)), t) := by
  simp only [escVal, hexVal_hexDigit a ha, hexVal_hexDigit b hb, hexVal_hexDigit c2 hc,
    hexVal_hexDigit d hd, hexVal_hexDigit a2 ha2, hexVal_hexDigit b2 hb2,
    hexVal_hexDigit c3 hc2, hexVal_hexDigit d2 hd2]
  rw [if_neg (show ¬(a * 4096 + b * 256 + c2 * 16 + d < 0xd800 ∨
      0xe000 ≤ a * 4096 + b * 256 + c2 * 16 + d) by omega), if_pos h2]
  simp only [if_pos (And.intro h3 h4)]
  simp

theorem pjstr_escChar (c : Char) (tail : List Char) (fuel : Nat) :
    parseJStr (fuel + 1) (escChar c ++ tail) =
      (parseJStr fuel tail).map (fun sr => (c :: sr.1, sr.2)) := by
  have hm16 : ∀ x : Nat, x % 16 < 16 := fun x => Nat.mod_lt _ (by norm_num)
  by_cases h1 : c = '"'
  · subst h1; exact pjstr_esc _ fuel '"' tail (escVal_q tail)
  by_cases h2 : c = '\\'
  · subst h2
    rw [show escChar '\\' ++ tail = '\\' :: '\\' :: tail from rfl]
    exact pjstr_esc _ fuel '\\' tail (escVal_b tail)
  by_cases h3 : c = '\n'
  · subst h3
    rw [show escChar '\n' ++ tail = '\\' :: 'n' :: tail from rfl]
    exact pjstr_esc _ fuel '\n' tail (escVal_n tail)
  by_cases h4 : c = '\r'
  · subst h4
    rw [show escChar '\r' ++ tail = '\\' :: 'r' :: tail from rfl]
    exact pjstr_esc _ fuel '\r' tail (escVal_r tail)
  by_cases h5 : c = '\t'
  · subst h5
    rw [show escChar '\t' ++ tail = '\\' :: 't' :: tail from rfl]
    exact pjstr_esc _ fuel '\t' tail (escVal_t tail)
  by_cases h6 : c = '\x08'
  · subst h6
    rw [show escChar '\x08' ++ tail = '\\' :: 'b' :: tail from rfl]
    exact pjstr_esc _ fuel '\x08' tail (escVal_bs tail)
  by_cases h7 : c = '\x0c'
  · subst h7
    rw [show escChar '\x0c' ++ tail = '\\' :: 'f' :: tail from rfl]
    exact pjstr_esc _ fuel '\x0c' tail (escVal_f tail)
  by_cases h8 : c.toNat < 0x20
  · rw [show escChar c = uEsc c.toNat by
      simp only [escChar]
      rw [if_neg h1, if_neg h2, if_neg h3, if_neg h4, if_neg h5, if_neg h6, if_neg h7,
        if_pos h8]]
    simp only [uEsc, List.cons_append, List.nil_append]
    rw [pjstr_esc _ fuel _ tail (escVal_u _ _ _ _ tail (hm16 _) (hm16 _) (hm16 _) (hm16 _)
      (Or.inl (by omega)))]
    have hrec : c.toNat / 4096 % 16 * 4096 + c.toNat / 256 % 16 * 256 +
        c.toNat / 16 % 16 * 16 + c.toNat % 16 = c.toNat := by omega
    rw [hrec, Char.ofNat_toNat]
  by_cases h9 : c.toNat < 0x7f
  · rw [show escChar c = [c] by
      simp only [escChar]
      rw [if_neg h1, if_neg h2, if_neg h3, if_neg h4, if_neg h5, if_neg h6, if_neg h7,
        if_neg h8, if_pos h9]]
    exact pjstr_lit c tail fuel h1 h2
  by_cases h10 : c.toNat < 0x10000
  · rw [show escChar c = uEsc c.toNat by
      simp only [escChar]
      rw [if_neg h1, if_neg h2, if_neg h3, if_neg h4, if_neg h5, if_neg h6, if_neg h7,
        if_neg h8, if_neg h9, if_pos h10]]
    simp only [uEsc, List.cons_append, List.nil_append]
    have hrec : c.toNat / 4096 % 16 * 4096 + c.toNat / 256 % 16 * 256 +
        c.toNat / 16 % 16 * 16 + c.toNat % 16 = c.toNat := by omega
    have hrange : c.toNat / 4096 % 16 * 4096 + c.toNat / 256 % 16 * 256 +
        c.toNat / 16 % 16 * 16 + c.toNat % 16 < 0xd800 ∨
        0xe000 ≤ c.toNat / 4096 % 16 * 4096 + c.toNat / 256 % 16 * 256 +
          c.toNat / 16 % 16 * 16 + c.toNat % 16 := by
      rw [hrec]
      rcases char_valid_range c with h | h
      · exact Or.inl h
      · exact Or.inr h.1
    rw [pjstr_esc _ fuel _ tail (escVal_u _ _ _ _ tail (hm16 _) (hm16 _) (hm16 _) (hm16 _)
      hrange)]
    rw [hrec, Char.ofNat_toNat]
  · rw [show escChar c = uEsc (0xd800 + (c.toNat - 0x10000) / 0x400) ++
        uEsc (0xdc00 + (c.toNat - 0x10000) % 0x400) by
      simp only [escChar]
      rw [if_neg h1, if_neg h2, if_neg h3, if_neg h4, if_neg h5, if_neg h6, if_neg h7,
        if_neg h8, if_neg h9, if_neg h10]]
    have hlt : c.toNat < 0x110000 := by
      rcases char_valid_range c with h | h
      · omega
      · exact h.2
    simp only [uEsc, List.cons_append, List.nil_append, List.append_assoc]
    rw [pjstr_esc _ fuel _ tail (escVal_u_pair _ _ _ _ _ _ _ _ tail
      (hm16 _) (hm16 _) (hm16 _) (hm16 _) (hm16 _) (hm16 _) (hm16 _) (hm16 _)
      (by omega) (by omega) (by omega) (by omega))]
    have hrec : 0x10000 +
        ((0xd800 + (c.toNat - 0x10000) / 0x400) / 4096 % 16 * 4096 +
          (0xd800 + (c.toNat - 0x10000) / 0x400) / 256 % 16 * 256 +
          (0xd800 + (c.toNat - 0x10000) / 0x400) / 16 % 16 * 16 +
          (0xd800 + (c.toNat - 0x10000) / 0x400) % 16 - 0xd800) * 0x400 +
        ((0xdc00 + (c.toNat - 0x10000) % 0x400) / 4096 % 16 * 4096 +
          (0xdc00 + (c.toNat - 0x10000) % 0x400) / 256 % 16 * 256 +
          (0xdc00 + (c.toNat - 0x10000) % 0x400) / 16 % 16 * 16 +
          (0xdc00 + (c.toNat - 0x10000) % 0x400) % 16 - 0xdc00) = c.toNat := by
      omega
    rw [hrec, Char.ofNat_toNat]

theorem escChar_length_pos (c : Char) : 1 ≤ (escChar c).length := by
  rcases he : escChar c with _ | ⟨d, ds⟩
  · exfalso
    have h := pjstr_escChar c ['"'] 1
    rw [he, List.nil_append] at h
    norm_num at h
    rw [show parseJStr 2 ['"'] = some ([], []) from rfl,
        show parseJStr 1 ['"'] = some ([], []) from rfl] at h
    simp at h
  · simp

theorem escString_length (s : List Char) : s.length ≤ (escString s).length := by
  induction s with
  | nil => simp [escString]
  | cons c cs ih =>
    simp only [escString, List.length_append, List.length_cons]
    have := escChar_length_pos c
    omega

theorem pjstr_escString (s : List Char) : ∀ (fuel : Nat) (rest : List Char),
    s.length < fuel → parseJStr fuel (escString s ++ '"' :: rest) = some (s, rest) := by
  induction s with
  | nil =>
    intro fuel rest h
    match fuel, h with
    | fuel + 1, _ => exact pjstr_quote rest fuel
  | cons c cs ih =>
    intro fuel rest h
    match fuel, h with
    | fuel + 1, h =>
      rw [show escString (c :: cs) ++ '"' :: rest =
          escChar c ++ (escString cs ++ '"' :: rest) by
        simp [escString, List.append_assoc]]
      rw [pjstr_escChar c _ fuel]
      rw [ih fuel rest (by simpa using Nat.lt_of_succ_lt_succ h)]
      rfl

theorem pna_stop (a : Nat) (sfx : List Char) (h : headNotDigit sfx) :
    parseNumAux a sfx = (a, sfx) := by
  cases sfx with
  | nil => rfl
  | cons c cs =>
    simp only [headNotDigit] at h
    simp [parseNumAux, h]

theorem pna_digit (a : Nat) (c : Char) (sfx : List Char) (h : c.isDigit = true) :
    parseNumAux a (c :: sfx) = parseNumAux (a * 10 + (c.toNat - 48)) sfx := by
  simp [parseNumAux, h]

theorem digit_char_facts (m : Nat) (h : m < 10) :
    (Char.ofNat (48 + m)).isDigit = true ∧ (Char.ofNat (48 + m)).toNat = 48 + m := by
  interval_cases m <;> exact ⟨by decide, by decide⟩

theorem pna_dec (fuel : Nat) : ∀ (n a : Nat) (sfx : List Char), n < 10 ^ (fuel + 1) →
    parseNumAux a (decDigits fuel n sfx) =
      parseNumAux (a * 10 ^ ndig fuel n + n) sfx := by
  induction fuel with
  | zero =>
    intro n a sfx hn
    have hn10 : n < 10 := by norm_num at hn; omega
    have hm : n % 10 = n := Nat.mod_eq_of_lt hn10
    obtain ⟨hd, ht⟩ := digit_char_facts (n % 10) (Nat.mod_lt _ (by norm_num))
    rw [decDigits, pna_digit _ _ _ hd, ht]
    simp only [ndig, pow_one, hm]
    congr 1
    omega
  | succ fuel ih =>
    intro n a sfx hn
    by_cases h10 : n < 10
    · have hm : n % 10 = n := Nat.mod_eq_of_lt h10
      obtain ⟨hd, ht⟩ := digit_char_facts (n % 10) (Nat.mod_lt _ (by norm_num))
      rw [decDigits, if_pos h10, pna_digit _ _ _ hd, ht]
      simp only [ndig, if_pos h10, pow_one, hm]
      congr 1
      omega
    · obtain ⟨hd, ht⟩ := digit_char_facts (n % 10) (Nat.mod_lt _ (by norm_num))
      have hdiv : n / 10 < 10 ^ (fuel + 1) := by
        have hp : (10:Nat) ^ (fuel + 2) = 10 ^ (fuel + 1) * 10 := by ring
        rw [hp] at hn
        omega
      rw [decDigits, if_neg h10, ih (n / 10) a _ hdiv, pna_digit _ _ _ hd, ht]
      simp only [ndig, if_neg h10]
      have hmod : 48 + n % 10 - 48 = n % 10 := by omega
      rw [hmod]
      have hdm : n / 10 * 10 + n % 10 = n := by omega
      have heq : (a * 10 ^ ndig fuel (n / 10) + n / 10) * 10 + n % 10 =
          a * 10 ^ (ndig fuel (n / 10) + 1) + n := by
        rw [pow_succ]
        calc (a * 10 ^ ndig fuel (n / 10) + n / 10) * 10 + n % 10
            = a * (10 ^ ndig fuel (n / 10) * 10) + (n / 10 * 10 + n % 10) := by ring
          _ = _ := by rw [hdm]
      rw [heq]

theorem decDigits_acc (fuel : Nat) : ∀ (n : Nat) (acc : List Char),
    decDigits fuel n acc = decDigits fuel n [] ++ acc := by
  induction fuel with
  | zero => intro n acc; simp [decDigits]
  | succ fuel ih =>
    intro n acc
    by_cases h10 : n < 10
    · simp [decDigits, if_pos h10]
    · rw [decDigits, if_neg h10, ih (n / 10)]
      conv_rhs => rw [decDigits, if_neg h10, ih (n / 10)]
      simp

theorem decDigits_head (fuel : Nat) : ∀ (n : Nat) (sfx : List Char),
    ∃ m ds, decDigits fuel n sfx = Char.ofNat (48 + m) :: ds ∧ m < 10 := by
  induction fuel with
  | zero =>
    intro n sfx
    exact ⟨n % 10, sfx, rfl, Nat.mod_lt _ (by norm_num)⟩
  | succ fuel ih =>
    intro n sfx
    by_cases h10 : n < 10
    · exact ⟨n % 10, sfx, by rw [decDigits, if_pos h10], Nat.mod_lt _ (by norm_num)⟩
    · obtain ⟨m, ds, hEq, hm⟩ := ih (n / 10) (Char.ofNat (48 + n % 10) :: sfx)
      exact ⟨m, ds, by rw [decDigits, if_neg h10, hEq], hm⟩

theorem pna_full (n : Nat) (sfx : List Char) (hs : headNotDigit sfx) :
    parseNumAux 0 (decRepr n ++ sfx) = (n, sfx) := by
  rw [decRepr, ← decDigits_acc]
  have hlt : n < 10 ^ (n + 1) := by
    have h1 := Nat.lt_pow_self (show (1:Nat) < 10 by norm_num) n
    have h2 := Nat.pow_le_pow_right (show (1:Nat) ≤ 10 by norm_num) (Nat.le_succ n)
    omega
  rw [pna_dec n n 0 sfx hlt]
  simp [pna_stop _ _ hs]

theorem parseJval_str (fuel : Nat) (rest : List Char) :
    parseJval (fuel + 1) ('"' :: rest) =
      (parseJStr rest.length rest).map (fun sr => (Jval.str ⟨sr.1⟩, sr.2)) := rfl

theorem parseJval_true (fuel : Nat) (tail : List Char) :
    parseJval (fuel + 1) ('t' :: 'r' :: 'u' :: 'e' :: tail) = some (Jval.bool true, tail) := rfl

theorem parseJval_false (fuel : Nat) (tail : List Char) :
    parseJval (fuel + 1) ('f' :: 'a' :: 'l' :: 's' :: 'e' :: tail) =
      some (Jval.bool false, tail) := rfl

theorem parseJval_arr_nil (fuel : Nat) (tail : List Char) :
    parseJval (fuel + 1) ('[' :: ']' :: tail) = some (Jval.arr [], tail) := rfl

theorem parseJval_obj_nil (fuel : Nat) (tail : List Char) :
    parseJval (fuel + 1) ('\x7b' :: '\x7d' :: tail) = some (Jval.obj [], tail) := rfl

theorem parseJval_obj_str (fuel : Nat) (rest : List Char) :
    parseJval (fuel + 1) ('\x7b' :: '"' :: rest) =
      match parseMembers fuel ('"' :: rest) with
      | some kvr => some (Jval.obj kvr.1, kvr.2)
      | none => none := rfl

theorem parseElems_succ (fuel : Nat) (cs : List Char) :
    parseElems (fuel + 1) cs =
      match parseJval fuel cs with
      | none => none
      | some jr =>
        match jr.2 with
        | ',' :: r => (parseElems fuel r).map (fun xsr => (jr.1 :: xsr.1, xsr.2))
        | ']' :: r => some ([jr.1], r)
        | _ => none := rfl

theorem parseMembers_str (fuel : Nat) (rest : List Char) :
    parseMembers (fuel + 1) ('"' :: rest) =
      match parseJStr rest.length rest with
      | none => none
      | some kr =>
        match kr.2 with
        | ':' :: r =>
          match parseJval fuel r with
          | none => none
          | some vr =>
            match vr.2 with
            | ',' :: r2 => (parseMembers fuel r2).map (fun kvr => ((⟨kr.1⟩, vr.1) :: kvr.1, kvr.2))
            | '\x7d' :: r2 => some ([(⟨kr.1⟩, vr.1)], r2)
            | _ => none
        | _ => none := rfl

theorem parseJval_digit (fuel : Nat) (c : Char) (rest : List Char)
    (h1 : c ≠ '"') (h2 : c ≠ 't') (h3 : c ≠ 'f') (h4 : c ≠ '[') (h5 : c ≠ '\x7b')
    (h6 : c.isDigit = true) :
    parseJval (fuel + 1) (c :: rest) =
      some (Jval.num (parseNumAux (c.toNat - 48) rest).1,
        (parseNumAux (c.toNat - 48) rest).2) := by
  simp only [parseJval]
  rw [if_neg h1, if_neg h2, if_neg h3, if_neg h4, if_neg h5, if_pos h6]

theorem parseJval_arr_cons (fuel : Nat) (c0 : Char) (cs0 : List Char) (h : c0 ≠ ']') :
    parseJval (fuel + 1) ('[' :: c0 :: cs0) =
      match parseElems fuel (c0 :: cs0) with
      | some xsr => some (Jval.arr xsr.1, xsr.2)
      | none => none := by
  simp only [parseJval, Char.reduceEq, reduceIte]
  split
  · next r heq =>
    rw [List.cons.injEq] at heq
    exact absurd heq.1 h
  · rfl

theorem renderArr_cons (x : Jval) (xs : List Jval) :
    ∃ r, renderArr (x :: xs) = renderJ x ++ r := by
  cases xs with
  | nil => exact ⟨[], by simp [renderArr]⟩
  | cons y ys => exact ⟨',' :: renderArr (y :: ys), by simp [renderArr]⟩

theorem renderObj_cons (kv : String × Jval) (kvs : List (String × Jval)) :
    ∃ r, renderObj (kv :: kvs) =
      '"' :: (escString kv.1.data ++ '"' :: ':' :: (renderJ kv.2 ++ r)) := by
  cases kvs with
  | nil => exact ⟨[], by simp [renderObj]⟩
  | cons kv2 rest =>
    refine ⟨',' :: renderObj (kv2 :: rest), ?_⟩
    show renderObj (kv :: kv2 :: rest) = _
    rw [renderObj]
    simp

theorem renderJ_head (v : Jval) : ∃ c cs, renderJ v = c :: cs ∧ c ≠ ']' := by
  cases v with
  | str s => exact ⟨'"', _, rfl, by decide⟩
  | num n =>
    obtain ⟨m, ds, hEq, hm⟩ := decDigits_head n n []
    refine ⟨Char.ofNat (48 + m), ds, ?_, ?_⟩
    · show decRepr n = _
      rw [decRepr, hEq]
    · intro hc
      have h2 := (digit_char_facts m hm).2
      rw [hc] at h2
      have h3 : (']' : Char).toNat = 93 := by decide
      omega
  | bool b => cases b with
    | true => exact ⟨'t', _, rfl, by decide⟩
    | false => exact ⟨'f', _, rfl, by decide⟩
  | arr xs => exact ⟨'[', _, rfl, by decide⟩
  | obj kvs => exact ⟨'\x7b', _, rfl, by decide⟩

theorem sizeJ_pos (v : Jval) : 1 ≤ sizeJ v := by
  cases v <;> simp [sizeJ]

theorem sizeL_pos (xs : List Jval) : 1 ≤ sizeL xs := by
  cases xs with
  | nil => simp [sizeL]
  | cons x xs => cases xs <;> simp [sizeL]

theorem sizeO_pos (kvs : List (String × Jval)) : 1 ≤ sizeO kvs := by
  cases kvs with
  | nil => simp [sizeO]
  | cons kv kvs => cases kvs <;> simp [sizeO]

theorem parseJval_render_num (fuel n : Nat) (sfx : List Char) (hs : headNotDigit sfx) :
    parseJval (fuel + 1) (decRepr n ++ sfx) = some (Jval.num n, sfx) := by
  have hful : decRepr n ++ sfx = decDigits n n sfx := by
    rw [decRepr, ← decDigits_acc]
  obtain ⟨m, ds, hEq, hm⟩ := decDigits_head n n sfx
  have hfacts := digit_char_facts m hm
  have hpn : parseNumAux ((Char.ofNat (48 + m)).toNat - 48) ds = (n, sfx) := by
    have h0 : parseNumAux 0 (Char.ofNat (48 + m) :: ds) = (n, sfx) := by
      rw [← hEq, ← hful]
      exact pna_full n sfx hs
    rw [pna_digit 0 _ _ hfacts.1] at h0
    simpa using h0
  rw [hful, hEq]
  rw [parseJval_digit fuel _ ds
    (by intro hc; rw [hc] at hfacts; simp at hfacts)
    (by intro hc; rw [hc] at hfacts; simp at hfacts)
    (by intro hc; rw [hc] at hfacts; simp at hfacts)
    (by intro hc; rw [hc] at hfacts; simp at hfacts)
    (by intro hc; rw [hc] at hfacts; simp at hfacts)
    hfacts.1]
  rw [hpn]

theorem escString_quote_length (s sfx : List Char) :
    s.length < (escString s ++ '"' :: sfx).length := by
  have := escString_length s
  simp only [List.length_append, List.length_cons]
  omega

theorem parseJval_render_str (fuel : Nat) (s : String) (tail : List Char) :
    parseJval (fuel + 1) (renderJ (Jval.str s) ++ tail) = some (Jval.str s, tail) := by
  have hassoc : renderJ (Jval.str s) ++ tail = '"' :: (escString s.data ++ '"' :: tail) := by
    show ('"' :: (escString s.data ++ ['"'])) ++ tail = _
    simp [List.append_assoc]
  rw [hassoc, parseJval_str]
  rw [pjstr_escString s.data _ tail (escString_quote_length s.data tail)]
  rfl

theorem parse_render_all (fuel : Nat) :
    (∀ (v : Jval) (tail : List Char), sizeJ v ≤ fuel → headNotDigit tail →
      parseJval fuel (renderJ v ++ tail) = some (v, tail)) ∧
    (∀ (x : Jval) (xs : List Jval) (tail : List Char), sizeL (x :: xs) ≤ fuel →
      parseElems fuel (renderArr (x :: xs) ++ ']' :: tail) = some (x :: xs, tail)) ∧
    (∀ (kv : String × Jval) (kvs : List (String × Jval)) (tail : List Char),
      sizeO (kv :: kvs) ≤ fuel →
      parseMembers fuel (renderObj (kv :: kvs) ++ '\x7d' :: tail) =
        some (kv :: kvs, tail)) := by
  induction fuel with
  | zero =>
    refine ⟨fun v tail hs _ => absurd hs (by have := sizeJ_pos v; omega),
      fun x xs tail hs => absurd hs (by have := sizeL_pos (x :: xs); omega),
      fun kv kvs tail hs => absurd hs (by have := sizeO_pos (kv :: kvs); omega)⟩
  | succ fuel ih =>
    obtain ⟨ihJ, ihL, ihO⟩ := ih
    refine ⟨?_, ?_, ?_⟩
    · intro v tail hsz htail
      cases v with
      | str s => exact parseJval_render_str fuel s tail
      | num n => exact parseJval_render_num fuel n tail htail
      | bool b =>
        cases b with
        | false =>
          rw [show renderJ (Jval.bool false) ++ tail =
            'f' :: 'a' :: 'l' :: 's' :: 'e' :: tail from rfl]
          exact parseJval_false fuel tail
        | true =>
          rw [show renderJ (Jval.bool true) ++ tail =
            't' :: 'r' :: 'u' :: 'e' :: tail from rfl]
          exact parseJval_true fuel tail
      | arr xs =>
        cases xs with
        | nil =>
          rw [show renderJ (Jval.arr []) ++ tail = '[' :: ']' :: tail from rfl]
          exact parseJval_arr_nil fuel tail
        | cons x xs =>
          obtain ⟨c0, cs0, hrx, hne⟩ := renderJ_head x
          obtain ⟨r, hra⟩ := renderArr_cons x xs
          have hshape : renderJ (Jval.arr (x :: xs)) ++ tail =
              '[' :: (renderArr (x :: xs) ++ ']' :: tail) := by
            show ('[' :: (renderArr (x :: xs) ++ [']'])) ++ tail = _
            simp [List.append_assoc]
          have hcons : renderArr (x :: xs) ++ ']' :: tail =
              c0 :: (cs0 ++ r ++ ']' :: tail) := by
            rw [hra, hrx]
            simp [List.append_assoc]
          rw [hshape, hcons, parseJval_arr_cons fuel c0 _ hne, ← hcons]
          rw [ihL x xs tail (by
            have hs : sizeJ (Jval.arr (x :: xs)) = 1 + sizeL (x :: xs) := rfl
            omega)]
      | obj kvs =>
        cases kvs with
        | nil =>
          rw [show renderJ (Jval.obj []) ++ tail = '\x7b' :: '\x7d' :: tail from rfl]
          exact parseJval_obj_nil fuel tail
        | cons kv kvs =>
          obtain ⟨r, hro⟩ := renderObj_cons kv kvs
          have hshape : renderJ (Jval.obj (kv :: kvs)) ++ tail =
              '\x7b' :: (renderObj (kv :: kvs) ++ '\x7d' :: tail) := by
            show ('\x7b' :: (renderObj (kv :: kvs) ++ ['\x7d'])) ++ tail = _
            simp [List.append_assoc]
          have hcons : renderObj (kv :: kvs) ++ '\x7d' :: tail =
              '"' :: ((escString kv.1.data ++ '"' :: ':' :: (renderJ kv.2 ++ r)) ++
                '\x7d' :: tail) := by
            rw [hro]
            simp
          rw [hshape, hcons, parseJval_obj_str fuel _, ← hcons]
          rw [ihO kv kvs tail (by
            have hs : sizeJ (Jval.obj (kv :: kvs)) = 1 + sizeO (kv :: kvs) := rfl
            omega)]
    · intro x xs tail hsz
      cases xs with
      | nil =>
        have h1 : renderArr [x] ++ ']' :: tail = renderJ x ++ ']' :: tail := by
          simp [renderArr]
        rw [h1, parseElems_succ]
        rw [ihJ x (']' :: tail) (by
            have hs : sizeL [x] = 1 + sizeJ x := rfl
            omega)
          (by show (']' : Char).isDigit = false; decide)]
        rfl
      | cons y ys =>
        have h1 : renderArr (x :: y :: ys) ++ ']' :: tail =
            renderJ x ++ (',' :: (renderArr (y :: ys) ++ ']' :: tail)) := by
          simp [renderArr, List.append_assoc]
        have hb : sizeJ x ≤ fuel ∧ sizeL (y :: ys) ≤ fuel := by
          have hs : sizeL (x :: y :: ys) = 1 + max (sizeJ x) (sizeL (y :: ys)) := rfl
          omega
        rw [h1, parseElems_succ]
        rw [ihJ x (',' :: (renderArr (y :: ys) ++ ']' :: tail)) hb.1
          (by show (',' : Char).isDigit = false; decide)]
        show Option.map (fun xsr => (x :: xsr.1, xsr.2))
            (parseElems fuel (renderArr (y :: ys) ++ ']' :: tail)) =
          some (x :: y :: ys, tail)
        rw [ihL y ys tail hb.2]
        rfl
    · intro kv kvs tail hsz
      cases kvs with
      | nil =>
        have h1 : renderObj [kv] ++ '\x7d' :: tail =
            '"' :: (escString kv.1.data ++ '"' ::
              (':' :: (renderJ kv.2 ++ '\x7d' :: tail))) := by
          show ('"' :: (escString kv.1.data ++ '"' :: ':' :: renderJ kv.2)) ++ '\x7d' :: tail = _
          simp [List.append_assoc]
        rw [h1, parseMembers_str]
        rw [pjstr_escString kv.1.data _ _ (escString_quote_length kv.1.data _)]
        show (match parseJval fuel (renderJ kv.2 ++ '\x7d' :: tail) with
            | none => none
            | some vr =>
              match vr.2 with
              | ',' :: r2 => (parseMembers fuel r2).map
                  (fun kvr => ((⟨kv.1.data⟩, vr.1) :: kvr.1, kvr.2))
              | '\x7d' :: r2 => some ([(⟨kv.1.data⟩, vr.1)], r2)
              | _ => none) = some ([kv], tail)
        rw [ihJ kv.2 ('\x7d' :: tail) (by
            have hs : sizeO [kv] = 1 + sizeJ kv.2 := rfl
            omega)
          (by show ('\x7d' : Char).isDigit = false; decide)]
        rfl
      | cons kv2 rest =>
        have h1 : renderObj (kv :: kv2 :: rest) ++ '\x7d' :: tail =
            '"' :: (escString kv.1.data ++ '"' ::
              (':' :: (renderJ kv.2 ++ ',' :: (renderObj (kv2 :: rest) ++
                '\x7d' :: tail)))) := by
          show (('"' :: (escString kv.1.data ++ '"' :: ':' :: renderJ kv.2)) ++
              ',' :: renderObj (kv2 :: rest)) ++ '\x7d' :: tail = _
          simp [List.append_assoc]
        have hb : sizeJ kv.2 ≤ fuel ∧ sizeO (kv2 :: rest) ≤ fuel := by
          have hs : sizeO (kv :: kv2 :: rest) =
            1 + max (sizeJ kv.2) (sizeO (kv2 :: rest)) := rfl
          omega
        rw [h1, parseMembers_str]
        rw [pjstr_escString kv.1.data _ _ (escString_quote_length kv.1.data _)]
        show (match parseJval fuel (renderJ kv.2 ++
              ',' :: (renderObj (kv2 :: rest) ++ '\x7d' :: tail)) with
            | none => none
            | some vr =>
              match vr.2 with
              | ',' :: r2 => (parseMembers fuel r2).map
                  (fun kvr => ((⟨kv.1.data⟩, vr.1) :: kvr.1, kvr.2))
              | '\x7d' :: r2 => some ([(⟨kv.1.data⟩, vr.1)], r2)
              | _ => none) = some (kv :: kv2 :: rest, tail)
        rw [ihJ kv.2 (',' :: (renderObj (kv2 :: rest) ++ '\x7d' :: tail)) hb.1
          (by show (',' : Char).isDigit = false; decide)]
        show Option.map (fun kvr => ((⟨kv.1.data⟩, kv.2) :: kvr.1, kvr.2))
            (parseMembers fuel (renderObj (kv2 :: rest) ++ '\x7d' :: tail)) =
          some (kv :: kv2 :: rest, tail)
        rw [ihO kv2 rest tail hb.2]
        rfl

theorem size_le_render_fuel (fuel : Nat) :
    (∀ (v : Jval), sizeJ v ≤ fuel → sizeJ v ≤ (renderJ v).length) ∧
    (∀ (x : Jval) (xs : List Jval), sizeL (x :: xs) ≤ fuel →
      sizeL (x :: xs) ≤ (renderArr (x :: xs)).length + 1) ∧
    (∀ (kv : String × Jval) (kvs : List (String × Jval)), sizeO (kv :: kvs) ≤ fuel →
      sizeO (kv :: kvs) ≤ (renderObj (kv :: kvs)).length + 1) := by
  induction fuel with
  | zero =>
    refine ⟨fun v hs => absurd hs (by have := sizeJ_pos v; omega),
      fun x xs hs => absurd hs (by have := sizeL_pos (x :: xs); omega),
      fun kv kvs hs => absurd hs (by have := sizeO_pos (kv :: kvs); omega)⟩
  | succ fuel ih =>
    obtain ⟨ihJ, ihL, ihO⟩ := ih
    refine ⟨?_, ?_, ?_⟩
    · intro v hsz
      cases v with
      | str s => simp [sizeJ, renderJ]
      | num n =>
        obtain ⟨m, ds, hEq, _⟩ := decDigits_head n n []
        simp [sizeJ, renderJ, decRepr, hEq]
      | bool b => cases b <;> simp [sizeJ, renderJ]
      | arr xs =>
        cases xs with
        | nil => simp [sizeJ, sizeL, renderJ, renderArr]
        | cons x xs =>
          have hs : sizeJ (Jval.arr (x :: xs)) = 1 + sizeL (x :: xs) := rfl
          have h := ihL x xs (by omega)
          simp only [sizeJ, renderJ, List.length_cons, List.length_append,
            List.length_singleton] at *
          omega
      | obj kvs =>
        cases kvs with
        | nil => simp [sizeJ, sizeO, renderJ, renderObj]
        | cons kv kvs =>
          have hs : sizeJ (Jval.obj (kv :: kvs)) = 1 + sizeO (kv :: kvs) := rfl
          have h := ihO kv kvs (by omega)
          simp only [sizeJ, renderJ, List.length_cons, List.length_append,
            List.length_singleton] at *
          omega
    · intro x xs hsz
      cases xs with
      | nil =>
        have hs : sizeL [x] = 1 + sizeJ x := rfl
        have h := ihJ x (by omega)
        simp only [sizeL, renderArr]
        omega
      | cons y ys =>
        have hs : sizeL (x :: y :: ys) = 1 + max (sizeJ x) (sizeL (y :: ys)) := rfl
        have h1 := ihJ x (by omega)
        have h2 := ihL y ys (by omega)
        simp only [sizeL, renderArr, List.length_append, List.length_cons] at *
        omega
    · intro kv kvs hsz
      cases kvs with
      | nil =>
        have hs : sizeO [kv] = 1 + sizeJ kv.2 := rfl
        have h := ihJ kv.2 (by omega)
        simp only [sizeO, renderObj, List.length_cons, List.length_append]
        omega
      | cons kv2 rest =>
        have hs : sizeO (kv :: kv2 :: rest) =
          1 + max (sizeJ kv.2) (sizeO (kv2 :: rest)) := rfl
        have h1 := ihJ kv.2 (by omega)
        have h2 := ihO kv2 rest (by omega)
        simp only [sizeO, renderObj, List.length_cons, List.length_append] at *
        omega

theorem sizeJ_le_render (v : Jval) : sizeJ v ≤ (renderJ v).length :=
  (size_le_render_fuel (sizeJ v)).1 v le_rfl

theorem parseJson_render (v : Jval) : parseJson (renderJ v) = some v := by
  rw [parseJson]
  have h := (parse_render_all (renderJ v).length).1 v [] (sizeJ_le_render v) trivial
  rw [List.append_nil] at h
  rw [h]

/-- C9: the rendered page is the fixed template prefix, the compact JSON
serialization of the dataset inserted verbatim, and the fixed template
suffix; parsing the serialized text back (the `json.loads` model) recovers
exactly the encoded dataset value, and decoding it recovers every field of
the dataset exactly. -/
theorem c9_template_and_round_trip (d : Dataset) :
    generate_html d = htmlPrefix ++ compactJson d ++ htmlSuffix ∧
    parseJson (compactJson d).data = some (encodeDataset d) ∧
    (parseJson (compactJson d).data).bind decodeDataset = some d := by
  have hparse : parseJson (compactJson d).data = some (encodeDataset d) :=
    parseJson_render (encodeDataset d)
  refine ⟨rfl, hparse, ?_⟩
  rw [hparse]
  show decodeDataset (encodeDataset d) = some d
  simp [decodeDataset, encodeDataset, jLookup, jStr, jStrArr, jStrList_map,
    decodePapers_encode, decodeMatrix_encode]

/-- C10: a level-2 heading on the very first line of the document (not
preceded by a newline) does not start a section — the splitter only cuts at
`"\n## "` — so a document with no such marker yields no records at all, its
first-line heading and entries falling into the discarded preamble. -/
theorem c10_first_line_heading_discarded (content today : String)
    (h : hasMarker content.data = false) :
    (parse_readme content today).papers = [] := by
  unfold parse_readme parseReadmeWith papersRaw scanSections
  rw [splitSections_of_no_marker content.data h]
  rfl

theorem c10_witness :
    hasMarker "## Oncology\n- **[A](http://x)**".data = false ∧
    (parse_readme "## Oncology\n- **[A](http://x)**" "2026-01-01").papers = [] ∧
    (parse_readme "\n## Oncology\n- **[A](http://x)**" "2026-01-01").papers.length = 1 :=
  ⟨by decide, c10_first_line_heading_discarded _ "2026-01-01" (by decide), by decide⟩

theorem lookupUrl_shift (ps : List Paper) (n : Nat) (u : String) :
    lookupUrl (urlIndexFrom n ps) u = (lookupUrl (urlIndexFrom 0 ps) u).map (n + ·) := by
  induction ps generalizing n with
  | nil => rfl
  | cons p ps ih =>
    by_cases h : p.url = u
    · simp [urlIndexFrom, lookupUrl, h]
    · simp only [urlIndexFrom, lookupUrl, h, if_false]
      rw [ih (n + 1), ih 1]
      cases lookupUrl (urlIndexFrom 0 ps) u <;> simp <;> omega

theorem lookupUrl_none_iff (ps : List Paper) (n : Nat) (u : String) :
    lookupUrl (urlIndexFrom n ps) u = none ↔ ∀ p ∈ ps, p.url ≠ u := by
  induction ps generalizing n with
  | nil => simp [urlIndexFrom, lookupUrl]
  | cons p ps ih =>
    by_cases h : p.url = u <;> simp [urlIndexFrom, lookupUrl, h, ih]

theorem map_id_of_no_url (ps : List Paper) (u : String) (f : Paper → Paper)
    (h : ∀ q ∈ ps, q.url ≠ u) :
    ps.map (fun q => if q.url = u then f q else q) = ps := by
  induction ps with
  | nil => rfl
  | cons p ps ih =>
    rw [List.map_cons, if_neg (h p (List.mem_cons_self p ps)), ih (fun q hq => h q (List.mem_cons_of_mem p hq))]

theorem updateAt_eq_map (ps : List Paper) (u : String) (i : Nat) (f : Paper → Paper)
    (hnd : (ps.map Paper.url).Nodup) (h : lookupUrl (urlIndexFrom 0 ps) u = some i) :
    updateAt ps i f = ps.map (fun q => if q.url = u then f q else q) := by
  induction ps generalizing i with
  | nil => simp [urlIndexFrom, lookupUrl] at h
  | cons p ps ih =>
    rw [List.map_cons, List.nodup_cons] at hnd
    rw [urlIndexFrom, lookupUrl] at h
    by_cases hp : p.url = u
    · rw [if_pos hp] at h
      injection h with h
      subst h
      rw [updateAt, List.map_cons, if_pos hp]
      have hall : ∀ q ∈ ps, q.url ≠ u := by
        intro q hq hqu
        exact hnd.1 (hp ▸ hqu ▸ List.mem_map_of_mem Paper.url hq)
      rw [map_id_of_no_url ps u f hall]
    · rw [if_neg hp, lookupUrl_shift ps 1 u] at h
      cases hL : lookupUrl (urlIndexFrom 0 ps) u with
      | none => rw [hL] at h; simp at h
      | some j =>
        rw [hL] at h
        simp at h
        have hi : i = j + 1 := by omega
        subst hi
        rw [updateAt, List.map_cons, if_neg hp, ih j hnd.2 hL]

theorem url_appendCat (c : String) (q : Paper) : (appendCat c q).url = q.url := by
  rw [appendCat]; split <;> rfl

theorem urlIndexFrom_append (ps : List Paper) (p : Paper) (n : Nat) :
    urlIndexFrom n (ps ++ [p]) = urlIndexFrom n ps ++ [(p.url, n + ps.length)] := by
  induction ps generalizing n with
  | nil => simp [urlIndexFrom]
  | cons q ps ih =>
    rw [List.cons_append, urlIndexFrom, ih (n + 1), urlIndexFrom, List.cons_append,
      List.length_cons]
    have h : n + 1 + ps.length = n + (ps.length + 1) := by omega
    rw [h]

theorem urlIndexFrom_congr (ps qs : List Paper) (n : Nat)
    (h : ps.map Paper.url = qs.map Paper.url) : urlIndexFrom n ps = urlIndexFrom n qs := by
  induction ps generalizing qs n with
  | nil =>
    cases qs with
    | nil => rfl
    | cons q qs => simp at h
  | cons p ps ih =>
    cases qs with
    | nil => simp at h
    | cons q qs =>
      simp only [List.map_cons, List.cons.injEq] at h
      rw [urlIndexFrom, urlIndexFrom, h.1, ih qs (n + 1) h.2]

theorem finalizePaper_of_none (category : String) (st : PState) (p : Paper)
    (h : lookupUrl st.seen_urls p.url = none) :
    finalizePaper category st p =
      { papers := st.papers ++ [p], paper_id := st.paper_id + 1
        seen_urls := st.seen_urls ++ [(p.url, st.papers.length)] } := by
  rw [finalizePaper.eq_def, h]

theorem finalizePaper_of_some (category : String) (st : PState) (p : Paper) (idx : Nat)
    (h : lookupUrl st.seen_urls p.url = some idx) :
    finalizePaper category st p =
      { st with papers := updateAt st.papers idx (appendCat category) } := by
  rw [finalizePaper.eq_def, h]

theorem finalize_refines (category : String) (st : PState) (p : Paper)
    (hInv : StInv st) (hid : p.id = st.paper_id) :
    (finalizePaper category st p).papers = mergeSpec st.papers category p ∧
    StInv (finalizePaper category st p) := by
  obtain ⟨h1, h2, h3⟩ := hInv
  cases hL : lookupUrl (urlIndexFrom 0 st.papers) p.url with
  | none =>
    rw [finalizePaper_of_none category st p (by rw [h2, hL])]
    have hall : ∀ q ∈ st.papers, q.url ≠ p.url := (lookupUrl_none_iff _ 0 _).mp hL
    have hany : ¬ (st.papers.any (fun q => decide (q.url = p.url)) = true) := by
      rw [List.any_eq_true]
      rintro ⟨q, hq, he⟩
      exact hall q hq (by simpa using he)
    have hp : ({ p with id := st.papers.length } : Paper) = p := by
      rw [← h1, ← hid]
    constructor
    · rw [mergeSpec, if_neg hany, hp]
    · refine ⟨by simp [h1], ?_, ?_⟩
      · simp only [urlIndexFrom_append st.papers p 0, h2, Nat.zero_add]
      · rw [List.map_append]
        simp only [List.map_cons, List.map_nil]
        rw [List.nodup_append]
        refine ⟨h3, List.nodup_singleton _, ?_⟩
        intro a ha hb
        simp only [List.mem_singleton] at hb
        obtain ⟨q, hq, rfl⟩ := List.mem_map.mp ha
        exact hall q hq hb
  | some i =>
    rw [finalizePaper_of_some category st p i (by rw [h2, hL])]
    have hne : ¬ ∀ q ∈ st.papers, q.url ≠ p.url := by
      intro hc
      rw [(lookupUrl_none_iff _ 0 _).mpr hc] at hL
      cases hL
    have hany : st.papers.any (fun q => decide (q.url = p.url)) = true := by
      rw [List.any_eq_true]
      push_neg at hne
      obtain ⟨q, hq, he⟩ := hne
      exact ⟨q, hq, by simpa using he⟩
    have hmap := updateAt_eq_map st.papers p.url i (appendCat category) h3 hL
    have hurls : (updateAt st.papers i (appendCat category)).map Paper.url =
        st.papers.map Paper.url := by
      rw [hmap, List.map_map]
      apply List.map_congr_left
      intro q _
      simp only [Function.comp_apply]
      split
      · exact url_appendCat category q
      · rfl
    constructor
    · rw [mergeSpec, if_pos hany, hmap]
    · refine ⟨?_, ?_, ?_⟩
      · have : (updateAt st.papers i (appendCat category)).length = st.papers.length := by
          have := congrArg List.length hurls
          simpa using this
        simp [h1, this]
      · simp only [h2]
        exact (urlIndexFrom_congr _ _ 0 hurls).symm
      · rw [hurls]; exact h3

theorem applyMeta_withId (n : Nat) (p : Paper) (line : List Char) :
    applyMeta (withId n p) line = withId n (applyMeta p line) := by
  simp only [applyMeta]
  cases meth_match line
  · cases pub_match line
    · cases sum_match line <;> rfl
    · rfl
  · rfl

theorem mergeSpec_withId (ps : List Paper) (category : String) (n : Nat) (p : Paper) :
    mergeSpec ps category (withId n p) = mergeSpec ps category p := rfl

theorem stepLine_title (category : String) (st : PState) (cur : Option Paper)
    (line : List Char) (t u : String) (h : title_match line = some (t, u)) :
    stepLine category (st, cur) line =
      (sectionFlush category (st, cur),
       some (newPaper (sectionFlush category (st, cur)).paper_id category t u)) := by
  rw [stepLine.eq_def, h]

theorem stepLine_metadata (category : String) (st : PState) (cur : Option Paper)
    (line : List Char) (h : title_match line = none) :
    stepLine category (st, cur) line = (st, cur.map (fun p => applyMeta p line)) := by
  rw [stepLine.eq_def, h]
  cases cur <;> rfl

theorem collectOccs_title (category : String) (l : List Char) (ls : List (List Char))
    (cur : Option Paper) (t u : String) (h : title_match l = some (t, u)) :
    collectOccs category (l :: ls) cur =
      flushOcc category cur ++ collectOccs category ls (some (newPaper 0 category t u)) := by
  simp only [collectOccs, h]

theorem collectOccs_meta (category : String) (l : List Char) (ls : List (List Char))
    (cur : Option Paper) (h : title_match l = none) :
    collectOccs category (l :: ls) cur =
      collectOccs category ls (cur.map (fun p => applyMeta p l)) := by
  simp only [collectOccs, h]

theorem sectionFlush_none (category : String) (st : PState) :
    sectionFlush category (st, none) = st := rfl

theorem sectionFlush_some (category : String) (st : PState) (p : Paper) :
    sectionFlush category (st, some p) = finalizePaper category st p := rfl

theorem withId_newPaper (n : Nat) (category t u : String) :
    withId n (newPaper 0 category t u) = newPaper n category t u := rfl

theorem loop_refines (category : String) (lines : List (List Char)) :
    ∀ (st : PState) (curS : Option Paper), StInv st →
    (sectionFlush category
        (lines.foldl (stepLine category) (st, curS.map (fun p => withId st.paper_id p)))).papers
      = mergeFold st.papers (collectOccs category lines curS) ∧
    StInv (sectionFlush category
        (lines.foldl (stepLine category) (st, curS.map (fun p => withId st.paper_id p)))) := by
  induction lines with
  | nil =>
    intro st curS hInv
    cases curS with
    | none => exact ⟨rfl, hInv⟩
    | some p =>
      simp only [List.foldl_nil, Option.map_some', sectionFlush_some]
      have h := finalize_refines category st (withId st.paper_id p) hInv rfl
      exact ⟨h.1, h.2⟩
  | cons l ls ih =>
    intro st curS hInv
    rw [List.foldl_cons]
    cases ht : title_match l with
    | some tu =>
      obtain ⟨t, u⟩ := tu
      rw [stepLine_title category st _ l t u ht,
        collectOccs_title category l ls curS t u ht]
      cases curS with
      | none =>
        simp only [Option.map_none', sectionFlush_none, flushOcc, List.nil_append]
        have := ih st (some (newPaper 0 category t u)) hInv
        simpa only [Option.map_some', withId_newPaper] using this
      | some p =>
        simp only [Option.map_some', sectionFlush_some, flushOcc]
        have hf := finalize_refines category st (withId st.paper_id p) hInv rfl
        have hrec := ih (finalizePaper category st (withId st.paper_id p))
          (some (newPaper 0 category t u)) hf.2
        simp only [Option.map_some', withId_newPaper] at hrec
        constructor
        · rw [hrec.1]
          simp only [mergeFold, List.singleton_append, List.foldl_cons]
          rw [show mergeSpec st.papers category p =
              (finalizePaper category st (withId st.paper_id p)).papers from
              (hf.1.trans (mergeSpec_withId st.papers category st.paper_id p)).symm]
        · exact hrec.2
    | none =>
      rw [stepLine_metadata category st _ l ht, collectOccs_meta category l ls curS ht]
      cases curS with
      | none => exact ih st none hInv
      | some p =>
        simp only [Option.map_some', applyMeta_withId]
        have := ih st (some (applyMeta p l)) hInv
        simpa only [Option.map_some'] using this

theorem mergeFold_append (ps : List Paper) (a b : List (String × Paper)) :
    mergeFold ps (a ++ b) = mergeFold (mergeFold ps a) b := by
  simp [mergeFold, List.foldl_append]

theorem processSection_refines (st : PState) (sec : List Char) (hInv : StInv st) :
    (processSection st sec).papers = mergeFold st.papers (sectionOccs sec) ∧
    StInv (processSection st sec) := by
  rw [processSection, sectionOccs]
  by_cases hc : (⟨pyStripL ((splitLines (pyStripL sec)).headD [])⟩ : String) = "Table of Contents"
  · rw [if_pos hc, if_pos hc]
    exact ⟨rfl, hInv⟩
  · rw [if_neg hc, if_neg hc]
    have := loop_refines (⟨pyStripL ((splitLines (pyStripL sec)).headD [])⟩ : String)
      ((splitLines (pyStripL sec)).drop 1) st none hInv
    simpa only [Option.map_none'] using this

theorem scan_refines (secs : List (List Char)) : ∀ st : PState, StInv st →
    (secs.foldl processSection st).papers = mergeFold st.papers (occsAll secs) ∧
    StInv (secs.foldl processSection st) := by
  induction secs with
  | nil => intro st h; exact ⟨rfl, h⟩
  | cons sec secs ih =>
    intro st h
    rw [List.foldl_cons, occsAll]
    have h1 := processSection_refines st sec h
    have h2 := ih (processSection st sec) h1.2
    refine ⟨?_, h2.2⟩
    rw [h2.1, h1.1, mergeFold_append]

theorem papersRaw_eq_mergeFold (content : String) :
    papersRaw content = mergeFold [] (docOccs content) := by
  rw [papersRaw, scanSections, docOccs]
  exact (scan_refines ((splitSections content.data).drop 1) initState
    ⟨rfl, rfl, List.nodup_nil⟩).1

/-- C1: every title-pattern line of a non-Table-of-Contents section gives rise
to exactly one candidate record (metadata lines applied up to the next title
line, the last candidate of a section committed at section end), and the raw
paper list is exactly the fold of the URL-keyed merge rule over those
candidates in document order: an unseen URL is appended with the next
sequential identifier, a seen URL only gets the current category appended to
the existing record's applications (if absent), its other fields discarded. -/
theorem c1_finalize_merge_refinement (content : String) :
    papersRaw content = mergeFold [] (docOccs content) :=
  papersRaw_eq_mergeFold content

theorem scanUrl_ne_nil : ∀ (cs u : List Char), scanUrl cs = some u → u ≠ [] := by
  intro cs
  induction cs with
  | nil => intro u h; simp [scanUrl] at h
  | cons c cs ih =>
    intro u h
    simp only [scanUrl] at h
    cases hs : stripPre [')', '*', '*'] cs with
    | some r =>
      rw [hs] at h
      injection h with h
      subst h
      simp
    | none =>
      rw [hs] at h
      cases hu : scanUrl cs with
      | none => rw [hu] at h; simp at h
      | some v =>
        rw [hu] at h
        simp only [Option.map_some'] at h
        injection h with h
        subst h
        simp

theorem scanTitle_url_ne : ∀ (cs t u : List Char), scanTitle cs = some (t, u) → u ≠ [] := by
  intro cs
  induction cs using scanTitle.induct with
  | case1 => intro t u h; simp [scanTitle] at h
  | case2 rest v hv =>
    intro t u h
    simp only [scanTitle, hv, Option.some.injEq, Prod.mk.injEq] at h
    exact h.2 ▸ scanUrl_ne_nil rest v hv
  | case3 rest hnone t0 u0 hst ih =>
    intro t u h
    rw [scanTitle.eq_def] at h
    simp only [hnone, hst, Option.some.injEq, Prod.mk.injEq] at h
    exact h.2 ▸ ih t0 u0 hst
  | case4 rest hnone hst ih =>
    intro t u h
    rw [scanTitle.eq_def] at h
    simp only [hnone, hst] at h
    exact Option.noConfusion h
  | case5 c cs hne t0 u0 hst ih =>
    intro t u h
    rw [scanTitle.eq_def] at h
    split at h
    · rename_i heq
      simp at heq
    · rename_i rest heq
      injection heq with h1 h2
      exact absurd (hne rest h1 h2) id
    · rename_i c' cs' hne' heq
      injection heq with h1 h2
      subst h1; subst h2
      rw [hst] at h
      simp only [Option.some.injEq, Prod.mk.injEq] at h
      exact h.2 ▸ ih t0 u0 hst
  | case6 c cs hne hst ih =>
    intro t u h
    rw [scanTitle.eq_def] at h
    split at h
    · rename_i heq
      simp at heq
    · rename_i rest heq
      injection heq with h1 h2
      exact absurd (hne rest h1 h2) id
    · rename_i c' cs' hne' heq
      injection heq with h1 h2
      subst h1; subst h2
      rw [hst] at h
      exact Option.noConfusion h

theorem title_match_nonempty (line : List Char) (t u : String)
    (h : title_match line = some (t, u)) : t ≠ "" ∧ u ≠ "" := by
  rw [title_match.eq_def] at h
  split at h
  · exact Option.noConfusion h
  · exact Option.noConfusion h
  · rename_i c cs heq
    cases hst : scanTitle cs with
    | none => rw [hst] at h; exact Option.noConfusion h
    | some tu =>
      obtain ⟨t', u'⟩ := tu
      rw [hst] at h
      simp only [Option.some.injEq, Prod.mk.injEq] at h
      obtain ⟨ht, hu⟩ := h
      constructor
      · rw [← ht]
        intro hc
        rw [String.ext_iff] at hc
        exact List.noConfusion hc
      · rw [← hu]
        intro hc
        rw [String.ext_iff] at hc
        exact scanTitle_url_ne cs t' u' hst hc

/-- Well-formedness of a candidate occurrence: non-empty title and url, and
the application list is exactly the category it was declared under. -/
def OccWf (occ : String × Paper) : Prop :=
  occ.2.title ≠ "" ∧ occ.2.url ≠ "" ∧ occ.2.applications = [occ.1]

theorem applyMeta_fields (p : Paper) (l : List Char) :
    (applyMeta p l).title = p.title ∧ (applyMeta p l).url = p.url ∧
    (applyMeta p l).applications = p.applications ∧ (applyMeta p l).id = p.id := by
  rw [applyMeta]
  cases meth_match l
  · cases pub_match l
    · cases sum_match l
      · exact ⟨rfl, rfl, rfl, rfl⟩
      · exact ⟨rfl, rfl, rfl, rfl⟩
    · exact ⟨rfl, rfl, rfl, rfl⟩
  · exact ⟨rfl, rfl, rfl, rfl⟩

theorem collectOccs_wf (category : String) :
    ∀ (lines : List (List Char)) (cur : Option Paper),
      (∀ p, cur = some p → p.title ≠ "" ∧ p.url ≠ "" ∧ p.applications = [category]) →
      ∀ occ ∈ collectOccs category lines cur, OccWf occ := by
  intro lines
  induction lines with
  | nil =>
    intro cur hcur occ hocc
    cases cur with
    | none => simp [collectOccs, flushOcc] at hocc
    | some p =>
      simp only [collectOccs, flushOcc, List.mem_singleton] at hocc
      subst hocc
      exact hcur p rfl
  | cons l ls ih =>
    intro cur hcur occ hocc
    cases ht : title_match l with
    | some tu =>
      obtain ⟨t, u⟩ := tu
      rw [collectOccs_title category l ls cur t u ht, List.mem_append] at hocc
      rcases hocc with hocc | hocc
      · cases cur with
        | none => simp [flushOcc] at hocc
        | some p =>
          simp only [flushOcc, List.mem_singleton] at hocc
          subst hocc
          exact hcur p rfl
      · refine ih (some (newPaper 0 category t u)) ?_ occ hocc
        rintro p hp
        injection hp with hp
        subst hp
        have := title_match_nonempty l t u ht
        exact ⟨this.1, this.2, rfl⟩
    | none =>
      rw [collectOccs_meta category l ls cur ht] at hocc
      refine ih (cur.map (fun p => applyMeta p l)) ?_ occ hocc
      rintro p hp
      cases cur with
      | none => exact Option.noConfusion hp
      | some q =>
        simp only [Option.map_some', Option.some.injEq] at hp
        subst hp
        have hf := applyMeta_fields q l
        have hq := hcur q rfl
        exact ⟨hf.1 ▸ hq.1, hf.2.1 ▸ hq.2.1, hf.2.2.1 ▸ hq.2.2⟩

theorem docOccs_wf (content : String) : ∀ occ ∈ docOccs content, OccWf occ := by
  rw [docOccs]
  generalize (splitSections content.data).drop 1 = secs
  induction secs with
  | nil => intro occ hocc; simp [occsAll] at hocc
  | cons sec secs ih =>
    intro occ hocc
    rw [occsAll, List.mem_append] at hocc
    rcases hocc with hocc | hocc
    · rw [sectionOccs] at hocc
      split at hocc
      · simp at hocc
      · exact collectOccs_wf _ _ none (fun p hp => Option.noConfusion hp) occ hocc
    · exact ih occ hocc

theorem appendCat_fields (c : String) (q : Paper) :
    (appendCat c q).title = q.title ∧ (appendCat c q).url = q.url ∧
    (appendCat c q).id = q.id := by
  rw [appendCat]
  split <;> exact ⟨rfl, rfl, rfl⟩

theorem mem_mergeSpec (ps : List Paper) (c : String) (q p : Paper)
    (hp : p ∈ mergeSpec ps c q) :
    (∃ r ∈ ps, p = r ∨ p = appendCat c r) ∨ p = { q with id := ps.length } := by
  rw [mergeSpec] at hp
  split at hp
  · rw [List.mem_map] at hp
    obtain ⟨r, hr, hpr⟩ := hp
    refine Or.inl ⟨r, hr, ?_⟩
    split at hpr
    · exact Or.inr hpr.symm
    · exact Or.inl hpr.symm
  · rw [List.mem_append, List.mem_singleton] at hp
    rcases hp with hp | hp
    · exact Or.inl ⟨p, hp, Or.inl rfl⟩
    · exact Or.inr hp

theorem mergeFold_nonempty_fields :
    ∀ (occs : List (String × Paper)) (ps : List Paper),
      (∀ p ∈ ps, p.title ≠ "" ∧ p.url ≠ "") →
      (∀ occ ∈ occs, OccWf occ) →
      ∀ p ∈ mergeFold ps occs, p.title ≠ "" ∧ p.url ≠ "" := by
  intro occs
  induction occs with
  | nil => intro ps hps _ p hp; exact hps p hp
  | cons occ occs ih =>
    intro ps hps hwf p hp
    rw [mergeFold, List.foldl_cons] at hp
    refine ih (mergeSpec ps occ.1 occ.2) ?_ (fun o ho => hwf o (List.mem_cons_of_mem occ ho)) p hp
    intro r hr
    rcases mem_mergeSpec ps occ.1 occ.2 r hr with ⟨s, hs, hrs | hrs⟩ | hr'
    · exact hrs ▸ hps s hs
    · have hf := appendCat_fields occ.1 s
      have := hps s hs
      exact hrs ▸ ⟨hf.1 ▸ this.1, hf.2.1 ▸ this.2⟩
    · have hwfo := hwf occ (List.mem_cons_self occ occs)
      subst hr'
      exact ⟨hwfo.1, hwfo.2.1⟩

theorem mergeSpec_urls (ps : List Paper) (c : String) (q : Paper) :
    (mergeSpec ps c q).map Paper.url =
      if ps.any (fun r => decide (r.url = q.url)) then ps.map Paper.url
      else ps.map Paper.url ++ [q.url] := by
  rw [mergeSpec]
  split
  · rw [List.map_map]
    apply List.map_congr_left
    intro r _
    simp only [Function.comp_apply]
    split
    · exact appendCat_fields c r |>.2.1
    · rfl
  · rw [List.map_append]
    rfl

theorem mergeFold_urls_nodup :
    ∀ (occs : List (String × Paper)) (ps : List Paper),
      (ps.map Paper.url).Nodup → ((mergeFold ps occs).map Paper.url).Nodup := by
  intro occs
  induction occs with
  | nil => intro ps h; exact h
  | cons occ occs ih =>
    intro ps h
    rw [mergeFold, List.foldl_cons]
    refine ih (mergeSpec ps occ.1 occ.2) ?_
    rw [mergeSpec_urls]
    split
    · exact h
    · rename_i hany
      rw [List.nodup_append]
      refine ⟨h, List.nodup_singleton _, ?_⟩
      intro a ha hb
      simp only [List.mem_singleton] at hb
      subst hb
      obtain ⟨r, hr, hru⟩ := List.mem_map.mp ha
      rw [List.any_eq_true] at hany
      exact hany ⟨r, hr, by simp [hru]⟩

/-- C2: every record of the output has a non-empty title and url (both regex
groups are non-empty by construction), and output urls are pairwise distinct
(one record per url). -/
theorem c2_nonempty_unique_urls (content today : String) :
    (∀ p ∈ (parse_readme content today).papers, p.title ≠ "" ∧ p.url ≠ "") ∧
    ((parse_readme content today).papers.map Paper.url).Nodup := by
  have hraw1 : ∀ p ∈ papersRaw content, p.title ≠ "" ∧ p.url ≠ "" := by
    rw [papersRaw_eq_mergeFold]
    exact mergeFold_nonempty_fields (docOccs content) [] (by simp) (docOccs_wf content)
  have hraw2 : ((papersRaw content).map Paper.url).Nodup := by
    rw [papersRaw_eq_mergeFold]
    exact mergeFold_urls_nodup (docOccs content) [] (by simp)
  constructor
  · intro p hp
    rw [papers_parse_readme] at hp
    obtain ⟨p1, hp1, rfl⟩ := List.mem_map.mp hp
    obtain ⟨q, hq, rfl⟩ := List.mem_map.mp hp1
    exact hraw1 q hq
  · rw [papers_parse_readme, List.map_map, List.map_map]
    exact hraw2

theorem mergeFold_ids :
    ∀ (occs : List (String × Paper)) (ps : List Paper),
      (∀ i (h : i < ps.length), ps[i].id = i) →
      ∀ i (h : i < (mergeFold ps occs).length), (mergeFold ps occs)[i].id = i := by
  intro occs
  induction occs with
  | nil => intro ps h; exact h
  | cons occ occs ih =>
    intro ps h
    rw [mergeFold, List.foldl_cons]
    refine ih (mergeSpec ps occ.1 occ.2) ?_
    intro i hi
    simp only [mergeSpec] at hi ⊢
    split
    · rename_i hc
      rw [if_pos hc] at hi
      rw [List.getElem_map]
      have hi' : i < ps.length := by simpa using hi
      by_cases hqc : ps[i].url = occ.2.url
      · rw [if_pos hqc, appendCat_fields occ.1 (ps[i]) |>.2.2]
        exact h i hi'
      · rw [if_neg hqc]
        exact h i hi'
    · rename_i hc
      rw [if_neg hc] at hi
      rw [List.length_append, List.length_singleton] at hi
      by_cases hlt : i < ps.length
      · rw [List.getElem_append_left hlt]
        exact h i hlt
      · have hieq : i = ps.length := by omega
        subst hieq
        rw [List.getElem_append_right (Nat.le_refl _)]
        simp

/-- C7: identifiers are positional — the i-th record of the output carries
identifier i, duplicate occurrences merging into existing records without
disturbing the numbering. -/
theorem c7_sequential_identifiers (content today : String) (i : Nat)
    (h : i < (parse_readme content today).papers.length) :
    (parse_readme content today).papers[i].id = i := by
  have hlen2 : (parse_readme content today).papers.length = (papersRaw content).length := by
    rw [papers_parse_readme, List.length_map, List.length_map]
  have hraw : ∀ j (hj : j < (papersRaw content).length), (papersRaw content)[j].id = j := by
    intro j hj
    have hj' : j < (mergeFold [] (docOccs content)).length := by
      rw [← papersRaw_eq_mergeFold]; exact hj
    have := mergeFold_ids (docOccs content) [] (by intro k hk; simp at hk) j hj'
    simpa [papersRaw_eq_mergeFold] using this
  have hi' : i < (papersRaw content).length := hlen2 ▸ h
  have : (parse_readme content today).papers[i] =
      tagReview (normPaper List.dedup ((papersRaw content)[i])) := by
    simp [papers_parse_readme, List.getElem_map]
  rw [this]
  exact hraw i hi'

theorem c7_witness :
    ((parse_readme "\n## A\n- **[P](u1)**\n- **[Q](u2)**\n## B\n- **[P](u1)**\n- **[R](u3)**" "2026-01-01").papers.get
      ⟨2, by decide⟩).id = 2 :=
  c7_sequential_identifiers "\n## A\n- **[P](u1)**\n- **[Q](u2)**\n## B\n- **[P](u1)**\n- **[R](u3)**" "2026-01-01" 2 (by decide)

theorem appsOf_cons (p : Paper) (ps : List Paper) (u : String) :
    appsOf (p :: ps) u = if p.url = u then some p.applications else appsOf ps u := by
  rw [appsOf, List.find?]
  by_cases h : p.url = u
  · simp [h]
  · simp [h, appsOf]

theorem catsOf_cons (c : String) (q : Paper) (occs : List (String × Paper)) (u : String) :
    catsOf ((c, q) :: occs) u =
      if q.url = u then c :: catsOf occs u else catsOf occs u := by
  rw [catsOf, List.filter]
  by_cases h : q.url = u
  · simp [h, catsOf]
  · simp [h, catsOf]

theorem foldIns_cons (as : List String) (c : String) (l : List String) :
    foldIns as (c :: l) = foldIns (if c ∈ as then as else as ++ [c]) l := rfl

theorem mem_foldIns (x : String) : ∀ (l as : List String),
    x ∈ foldIns as l ↔ x ∈ as ∨ x ∈ l := by
  intro l
  induction l with
  | nil => intro as; simp [foldIns]
  | cons c l ih =>
    intro as
    rw [foldIns_cons, ih]
    by_cases h : c ∈ as
    · rw [if_pos h]
      constructor
      · rintro (hx | hx)
        · exact Or.inl hx
        · exact Or.inr (List.mem_cons_of_mem c hx)
      · rintro (hx | hx)
        · exact Or.inl hx
        · rcases List.mem_cons.mp hx with rfl | hx
          · exact Or.inl h
          · exact Or.inr hx
    · rw [if_neg h]
      simp only [List.mem_append, List.mem_singleton, List.mem_cons]
      tauto

theorem mem_insDedup (x : String) (l : List String) : x ∈ insDedup l ↔ x ∈ l := by
  rw [insDedup, mem_foldIns]
  simp

theorem find?_map_url_preserving (ps : List Paper) (u : String) (f : Paper → Paper)
    (hf : ∀ q, (f q).url = q.url) :
    (ps.map f).find? (fun r => decide (r.url = u)) =
      (ps.find? (fun r => decide (r.url = u))).map f := by
  induction ps with
  | nil => rfl
  | cons p ps ih =>
    rw [List.map_cons, List.find?, List.find?]
    by_cases h : p.url = u
    · simp [hf p, h]
    · simp [hf p, h, ih]

theorem appsOf_mergeSpec (ps : List Paper) (c : String) (q : Paper) (u : String) :
    appsOf (mergeSpec ps c q) u =
      if q.url = u then
        match appsOf ps u with
        | some as => some (if c ∈ as then as else as ++ [c])
        | none => some q.applications
      else appsOf ps u := by
  rw [mergeSpec]
  split
  · rename_i hany
    rw [appsOf, find?_map_url_preserving ps u _
      (fun r => by split; exacts [appendCat_fields c r |>.2.1, rfl])]
    by_cases hq : q.url = u
    · rw [if_pos hq]
      cases hfind : ps.find? (fun r => decide (r.url = u)) with
      | none =>
        exfalso
        rw [List.any_eq_true] at hany
        obtain ⟨r, hr, hru⟩ := hany
        have hruq : r.url = q.url := by simpa using hru
        have hru' : r.url = u := hq ▸ hruq
        have h2 := List.find?_eq_none.mp hfind r hr
        simp only [decide_eq_true_eq] at h2
        exact h2 hru'
      | some r =>
        have hru : r.url = u := by simpa using List.find?_some hfind
        simp only [Option.map_some', appsOf, hfind]
        rw [if_pos (hq ▸ hru), appendCat]
        split <;> rfl
    · rw [if_neg hq, appsOf]
      congr 1
      cases hfind : ps.find? (fun r => decide (r.url = u)) with
      | none => simp
      | some r =>
        have hru : r.url = u := by simpa using List.find?_some hfind
        simp only [Option.map_some']
        rw [if_neg (fun hh : r.url = q.url => hq (hh ▸ hru))]
  · rename_i hany
    by_cases hq : q.url = u
    · rw [if_pos hq]
      have hnone : ps.find? (fun r => decide (r.url = u)) = none := by
        rw [List.find?_eq_none]
        intro r hr hru
        have hru' : r.url = u := by simpa using hru
        exact hany (List.any_eq_true.mpr ⟨r, hr, by simp [hru', hq]⟩)
      have happ : appsOf ps u = none := by rw [appsOf, hnone]; rfl
      rw [happ, appsOf, List.find?_append, hnone]
      simp [List.find?, hq]
    · rw [if_neg hq, appsOf, List.find?_append, appsOf]
      cases hfind : ps.find? (fun r => decide (r.url = u)) with
      | none => simp [List.find?, hq]
      | some r => simp

theorem mergeFold_appsOf :
    ∀ (occs : List (String × Paper)) (ps : List Paper) (u : String),
      (∀ occ ∈ occs, occ.2.applications = [occ.1]) →
      appsOf (mergeFold ps occs) u =
        match appsOf ps u with
        | some as => some (foldIns as (catsOf occs u))
        | none =>
          if occs.any (fun occ => decide (occ.2.url = u)) then
            some (insDedup (catsOf occs u))
          else none := by
  intro occs
  induction occs with
  | nil =>
    intro ps u _
    cases happ : appsOf ps u <;> simp [mergeFold, catsOf, foldIns, insDedup, happ]
  | cons occ occs ih =>
    intro ps u hwf
    obtain ⟨c, q⟩ := occ
    rw [mergeFold, List.foldl_cons]
    have hq_apps : q.applications = [c] := hwf (c, q) (List.mem_cons_self _ _)
    have hrec := ih (mergeSpec ps c q) u (fun o ho => hwf o (List.mem_cons_of_mem _ ho))
    rw [show List.foldl (fun acc occ => mergeSpec acc occ.1 occ.2) (mergeSpec ps c q) occs
      = mergeFold (mergeSpec ps c q) occs from rfl, hrec, appsOf_mergeSpec,
      catsOf_cons]
    by_cases hqu : q.url = u
    · rw [if_pos hqu, if_pos hqu]
      cases happ : appsOf ps u with
      | some as => rfl
      | none =>
        have hany : ((c, q) :: occs).any (fun occ => decide (occ.2.url = u)) = true := by
          rw [List.any_eq_true]
          exact ⟨(c, q), List.mem_cons_self _ _, by simp [hqu]⟩
        rw [if_pos hany, hq_apps]
        rfl
    · rw [if_neg hqu, if_neg hqu]
      cases happ : appsOf ps u with
      | some as => rfl
      | none =>
        have : ((c, q) :: occs).any (fun occ => decide (occ.2.url = u)) =
            occs.any (fun occ => decide (occ.2.url = u)) := by
          simp [hqu]
        rw [this]

theorem find?_mem_nodup (ps : List Paper) (q : Paper)
    (hnd : (ps.map Paper.url).Nodup) (hq : q ∈ ps) :
    ps.find? (fun r => decide (r.url = q.url)) = some q := by
  induction ps with
  | nil => simp at hq
  | cons p ps ih =>
    rw [List.map_cons, List.nodup_cons] at hnd
    by_cases h : p.url = q.url
    · rw [List.find?_cons_of_pos _ (by simp [h])]
      rcases List.mem_cons.mp hq with rfl | hq'
      · rfl
      · exact absurd (h ▸ List.mem_map_of_mem Paper.url hq') hnd.1
    · rw [List.find?_cons_of_neg _ (by simp [h])]
      rcases List.mem_cons.mp hq with rfl | hq'
      · exact absurd rfl h
      · exact ih hnd.2 hq'

theorem papersRaw_applications (content : String) (q : Paper) (hq : q ∈ papersRaw content) :
    q.applications = insDedup (declaredCats content q.url) := by
  have hnd : ((papersRaw content).map Paper.url).Nodup := by
    rw [papersRaw_eq_mergeFold]
    exact mergeFold_urls_nodup (docOccs content) [] (by simp)
  have hfind : appsOf (papersRaw content) q.url = some q.applications := by
    rw [appsOf, find?_mem_nodup (papersRaw content) q hnd hq]
    rfl
  rw [papersRaw_eq_mergeFold] at hfind
  rw [mergeFold_appsOf (docOccs content) [] q.url
    (fun occ ho => (docOccs_wf content occ ho).2.2)] at hfind
  have h0 : appsOf ([] : List Paper) q.url = none := rfl
  simp only [h0] at hfind
  rw [declaredCats]
  split at hfind
  · injection hfind with hfind
    exact hfind.symm
  · exact Option.noConfusion hfind

/-- C3: a record's `is_review` flag is true exactly when it was declared under
the reviews category, that label never survives into the final application
list, and the final application list is the first-occurrence deduplication of
the categories the url was declared under, with the reviews label filtered
out (so reviews-only papers end with an empty list, and mixed papers keep the
other categories). -/
theorem c3_review_extraction (content today : String) (p : Paper)
    (hp : p ∈ (parse_readme content today).papers) :
    (p.is_review = true ↔ reviewsLabel ∈ declaredCats content p.url) ∧
    reviewsLabel ∉ p.applications ∧
    p.applications = (insDedup (declaredCats content p.url)).filter
      (fun a => decide (a ≠ reviewsLabel)) := by
  rw [papers_parse_readme] at hp
  obtain ⟨p1, hp1, rfl⟩ := List.mem_map.mp hp
  obtain ⟨q, hq, rfl⟩ := List.mem_map.mp hp1
  have happs : q.applications = insDedup (declaredCats content q.url) :=
    papersRaw_applications content q hq
  have hurl : (tagReview (normPaper List.dedup q)).url = q.url := rfl
  have happ2 : (tagReview (normPaper List.dedup q)).applications =
      q.applications.filter (fun a => decide (a ≠ reviewsLabel)) := rfl
  have hrev : (tagReview (normPaper List.dedup q)).is_review =
      decide (reviewsLabel ∈ q.applications) := rfl
  refine ⟨?_, ?_, ?_⟩
  · rw [hrev, hurl, decide_eq_true_eq, happs, mem_insDedup]
  · rw [happ2]
    intro hc
    rw [List.mem_filter] at hc
    exact (by simpa using hc.2 : reviewsLabel ≠ reviewsLabel) rfl
  · rw [happ2, happs, hurl]

theorem c3_witness :
    (((parse_readme "\n## Oncology\n- **[Paper A](http://a)**\n## Reviews / Tutorials / Perspectives\n- **[Paper A](http://a)**\n- **[Paper D](http://d)**\n" "2026-01-01").papers.get
        ⟨0, by decide⟩).is_review = true) ∧
    reviewsLabel ∉
      ((parse_readme "\n## Oncology\n- **[Paper A](http://a)**\n## Reviews / Tutorials / Perspectives\n- **[Paper A](http://a)**\n- **[Paper D](http://d)**\n" "2026-01-01").papers.get
        ⟨0, by decide⟩).applications :=
  ⟨(c3_review_extraction "\n## Oncology\n- **[Paper A](http://a)**\n## Reviews / Tutorials / Perspectives\n- **[Paper A](http://a)**\n- **[Paper D](http://d)**\n" "2026-01-01" _ (by decide)).1.mpr (by decide),
   (c3_review_extraction "\n## Oncology\n- **[Paper A](http://a)**\n## Reviews / Tutorials / Perspectives\n- **[Paper A](http://a)**\n- **[Paper D](http://d)**\n" "2026-01-01" _ (by decide)).2.1⟩

theorem data_append (s t : String) : (s ++ t).data = s.data ++ t.data :=
  String.data_append s t

theorem c6_counterexample :
    ¬ (∀ o₁ o₂ : List String → List String, ValidSetList o₁ → ValidSetList o₂ →
        ∀ content today : String,
          buildSiteWith o₁ content today = buildSiteWith o₂ content today) := by
  intro h
  have h1 : ValidSetList List.dedup := fun l => List.Perm.refl _
  have h2 : ValidSetList revDedup := fun l => List.reverse_perm _
  have heq := h List.dedup revDedup h1 h2 docTwoMeths "2026-01-01"
  rw [buildSiteWith, buildSiteWith, generate_html, generate_html] at heq
  have hd := congrArg String.data heq
  simp only [data_append] at hd
  have hc := List.append_cancel_left (List.append_cancel_right hd)
  exact (by decide :
    (compactJson (parseReadmeWith List.dedup docTwoMeths "2026-01-01")).data ≠
    (compactJson (parseReadmeWith revDedup docTwoMeths "2026-01-01")).data) hc

theorem forall₂_map_same {α β : Type} (f g : α → β) (P : β → β → Prop) (l : List α)
    (h : ∀ x ∈ l, P (f x) (g x)) : List.Forall₂ P (l.map f) (l.map g) := by
  induction l with
  | nil => exact List.Forall₂.nil
  | cons a l ih =>
    exact List.Forall₂.cons (h a (List.mem_cons_self a l))
      (ih (fun x hx => h x (List.mem_cons_of_mem a hx)))

theorem paperSim_of_valid (o₁ o₂ : List String → List String)
    (h₁ : ValidSetList o₁) (h₂ : ValidSetList o₂) (q : Paper) :
    PaperSim (tagReview (normPaper o₁ q)) (tagReview (normPaper o₂ q)) := by
  refine ⟨rfl, rfl, rfl, ?_, rfl, rfl, rfl, rfl⟩
  exact (h₁ (cleanMeths q.methodologies)).trans (h₂ (cleanMeths q.methodologies)).symm

theorem collectApps_congr : ∀ (ps₁ ps₂ : List Paper), List.Forall₂ PaperSim ps₁ ps₂ →
    collectApps ps₁ = collectApps ps₂ := by
  intro ps₁ ps₂ h
  induction h with
  | nil => rfl
  | cons hpq hrest ih =>
    rw [collectApps, collectApps, hpq.2.2.2.2.1, ih]

theorem collectMeths_perm : ∀ (ps₁ ps₂ : List Paper), List.Forall₂ PaperSim ps₁ ps₂ →
    List.Perm (collectMeths ps₁) (collectMeths ps₂) := by
  intro ps₁ ps₂ h
  induction h with
  | nil => exact List.Perm.refl _
  | cons hpq hrest ih =>
    exact List.Perm.append (hpq.2.2.2.1.filter _) ih

theorem sortStrings_eq_of_perm (l₁ l₂ : List String) (h : List.Perm l₁ l₂) :
    sortStrings l₁ = sortStrings l₂ :=
  List.eq_of_perm_of_sorted
    (((sortStrings_perm l₁).trans h).trans (sortStrings_perm l₂).symm)
    (sortStrings_sorted l₁) (sortStrings_sorted l₂)

theorem countPapers_congr : ∀ (ps₁ ps₂ : List Paper), List.Forall₂ PaperSim ps₁ ps₂ →
    ∀ a m, countPapers ps₁ a m = countPapers ps₂ a m := by
  intro ps₁ ps₂ h
  induction h with
  | nil => intro a m; rfl
  | @cons p q l₁ l₂ hpq hrest ih =>
    intro a m
    have hcond : (decide (a ∈ p.applications) && decide (m ∈ p.methodologies))
        = (decide (a ∈ q.applications) && decide (m ∈ q.methodologies)) := by
      rw [hpq.2.2.2.2.1]
      congr 1
      exact decide_eq_decide.mpr hpq.2.2.2.1.mem_iff
    rw [countPapers, countPapers, List.filter_cons, List.filter_cons, hcond]
    split
    · simp only [List.length_cons]
      exact congrArg Nat.succ (ih a m)
    · exact ih a m

/-- The amended C6: for a fixed current date the output is a function of the
document text and the interpreter's set-enumeration order; two valid
enumeration orders give datasets identical in every aggregate field and in
every paper field except the order within each paper's methodology list. -/
theorem c6_amended_deterministic_up_to_meth_order
    (o₁ o₂ : List String → List String) (h₁ : ValidSetList o₁) (h₂ : ValidSetList o₂)
    (content today : String) :
    (parseReadmeWith o₁ content today).applications =
      (parseReadmeWith o₂ content today).applications ∧
    (parseReadmeWith o₁ content today).methodologies =
      (parseReadmeWith o₂ content today).methodologies ∧
    (parseReadmeWith o₁ content today).matrix = (parseReadmeWith o₂ content today).matrix ∧
    (parseReadmeWith o₁ content today).lastUpdated =
      (parseReadmeWith o₂ content today).lastUpdated ∧
    List.Forall₂ PaperSim (parseReadmeWith o₁ content today).papers
      (parseReadmeWith o₂ content today).papers := by
  have hsim : List.Forall₂ PaperSim
      (((papersRaw content).map (normPaper o₁)).map tagReview)
      (((papersRaw content).map (normPaper o₂)).map tagReview) := by
    rw [List.map_map, List.map_map]
    exact forall₂_map_same _ _ PaperSim (papersRaw content)
      (fun q _ => paperSim_of_valid o₁ o₂ h₁ h₂ q)
  have happs : all_apps (((papersRaw content).map (normPaper o₁)).map tagReview)
      = all_apps (((papersRaw content).map (normPaper o₂)).map tagReview) := by
    rw [all_apps, all_apps, collectApps_congr _ _ hsim]
  have hmeths : all_meths (((papersRaw content).map (normPaper o₁)).map tagReview)
      = all_meths (((papersRaw content).map (normPaper o₂)).map tagReview) := by
    rw [all_meths, all_meths]
    exact sortStrings_eq_of_perm _ _ (collectMeths_perm _ _ hsim).dedup
  refine ⟨happs, hmeths, ?_, rfl, hsim⟩
  show buildMatrix _ _ _ = buildMatrix _ _ _
  rw [buildMatrix, buildMatrix, happs, hmeths]
  apply List.map_congr_left
  intro a _
  rw [Prod.mk.injEq]
  refine ⟨rfl, List.map_congr_left ?_⟩
  intro m _
  rw [Prod.mk.injEq]
  exact ⟨rfl, countPapers_congr _ _ hsim a m⟩

theorem c6_witness :
    List.Forall₂ PaperSim (parseReadmeWith List.dedup docTwoMeths "2026-01-01").papers
      (parseReadmeWith revDedup docTwoMeths "2026-01-01").papers ∧
    (parseReadmeWith List.dedup docTwoMeths "2026-01-01").matrix =
      (parseReadmeWith revDedup docTwoMeths "2026-01-01").matrix :=
  ⟨(c6_amended_deterministic_up_to_meth_order List.dedup revDedup
      (fun l => List.Perm.refl _) (fun l => List.reverse_perm _)
      docTwoMeths "2026-01-01").2.2.2.2,
   (c6_amended_deterministic_up_to_meth_order List.dedup revDedup
      (fun l => List.Perm.refl _) (fun l => List.reverse_perm _)
      docTwoMeths "2026-01-01").2.2.1⟩
